import Mathlib

/-!
# Verification of the command execution engine (`src/shell.c`)

A shallow embedding of the engine of `src/shell.c`: the job stack and the
signal handlers, the builtin dispatch of `exec_command`, the descriptor
save/restore bracket of `exec_redirect`, the pipe wiring of `exec_pipe` and the
flattening loop of `exec_sequence`.

The model follows ONE process.  Everything the operating system decides is
explicit:

* the descriptor table is a list of slots, slot `n` holding the open file that
  descriptor `n` refers to; `open`, `dup` and `pipe` take the lowest free slot;
* the descriptor limit of the process (`RLIMIT_NOFILE`) is `OS.nofile`: under
  it the `open` and `dup` of `exec_redirect` fail (EMFILE) when no slot below
  the limit is free, and its `dup2` fails (EBADF) on a target that is not below
  the limit; `exec_pipe` is modelled where the limit does not bind: `pipe()`
  succeeds, and its `dup2` calls target descriptors 0 and 1;
* the results of the coming `fork()` calls are a list held in the state
  (`0`: this process is the child, `-1`: failure, otherwise the pid of the
  child, seen by the parent);
* the answers of the file system and of `chdir`/`putenv`/`unsetenv`/`execvp`
  are the fields of `OS`;
* every signal sent, every wait and every message printed is appended to a log.

Not modelled: the prompt (`parse_prompt`), heap allocation (the `free` calls of
`exec_sequence`), the exit status of children (the code passes `NULL` to every
`waitpid`), and the interleaving of handlers with the main control flow
(handlers are separate steps on the state).
-/

namespace Shell

/-! ## Kernel side: open files and the descriptor table -/

/-- An open file, as a descriptor refers to it. -/
inductive File where
  | inode (n : Nat)
  | pipe_read (k : Nat)
  | pipe_write (k : Nat)
  deriving DecidableEq

/-- The descriptor table: slot `n` is `some f` when descriptor `n` is open on `f`. -/
abbrev Table := List (Option File)

namespace Table

/-- The open file in slot `n`, `none` when the slot is free. -/
def get : Table → Nat → Option File
  | [], _ => none
  | x :: _, 0 => x
  | _ :: t, n + 1 => get t n

/-- The lowest free slot: what `open`, `dup` and `pipe` hand out. -/
def lowest_free : Table → Nat
  | [] => 0
  | none :: _ => 0
  | some _ :: t => lowest_free t + 1

/-- Write slot `n`, growing the table when needed. -/
def install : Table → Nat → Option File → Table
  | [], 0, v => [v]
  | [], n + 1, v => none :: install [] n v
  | _ :: t, 0, v => v :: t
  | x :: t, n + 1, v => x :: install t n v

/-- What descriptor `fd` (a C `int`) refers to; negative descriptors are never open. -/
def lookup (t : Table) (fd : Int) : Option File :=
  if fd < 0 then none else get t fd.toNat

end Table

/-- The call `open(path, flags)` where a slot below the descriptor limit is
free: `r` is the answer of the file system. -/
def sys_open (t : Table) (r : Option File) : Int × Table :=
  match r with
  | none => (-1, t)
  | some f => ((t.lowest_free : Int), t.install t.lowest_free (some f))

/-- The call `open(path, flags)` under the descriptor limit `nofile`
(`RLIMIT_NOFILE`): it fails (EMFILE) when the lowest free slot is not below the
limit. -/
def sys_open_lim (nofile : Nat) (t : Table) (r : Option File) : Int × Table :=
  if t.lowest_free < nofile then sys_open t r else (-1, t)

/-- The call `dup(oldfd)` under the descriptor limit `nofile`: it fails on a
closed descriptor (EBADF), and when the lowest free slot is not below the
limit (EMFILE). -/
def sys_dup (nofile : Nat) (t : Table) (oldfd : Int) : Int × Table :=
  match t.lookup oldfd with
  | none => (-1, t)
  | some f =>
    if t.lowest_free < nofile then ((t.lowest_free : Int), t.install t.lowest_free (some f))
    else (-1, t)

/-- The call `dup2(oldfd, newfd)` onto a descriptor below the descriptor limit. -/
def sys_dup2 (t : Table) (oldfd newfd : Int) : Int × Table :=
  match t.lookup oldfd with
  | none => (-1, t)
  | some f =>
    if newfd < 0 then (-1, t)
    else if oldfd = newfd then (newfd, t)
    else (newfd, t.install newfd.toNat (some f))

/-- The call `dup2(oldfd, newfd)` under the descriptor limit `nofile`: it also
fails (EBADF) when `newfd` is not below the limit. -/
def sys_dup2_lim (nofile : Nat) (t : Table) (oldfd newfd : Int) : Int × Table :=
  if (nofile : Int) ≤ newfd then (-1, t) else sys_dup2 t oldfd newfd

/-- The call `close(fd)`. -/
def sys_close (t : Table) (fd : Int) : Int × Table :=
  match t.lookup fd with
  | none => (-1, t)
  | some _ => (0, t.install fd.toNat none)

/-! ## Engine state -/

/-- The signals the engine sends. -/
inductive Signal where
  | SIGTSTP
  | SIGCONT
  | SIGKILL
  deriving DecidableEq

/-- The options the engine passes to `waitpid`. -/
inductive WaitOption where
  | WUNTRACED
  | WNOHANG
  deriving DecidableEq

/-- What the engine does to the outside world, in the order it does it. -/
inductive Event where
  | killpg (pgrp : Int) (sig : Signal)
  | kill (pid : Int) (sig : Signal)
  | waitpid (pid : Int) (options : WaitOption)
  | perror (msg : String)
  | printf (text : String)
  | chdir (path : Option String)
  | putenv (arg : Option String)
  | unsetenv (name : Option String)
  | setpgid (pid pgid : Int)
  | execvp (file : String) (argv : List String)
  deriving DecidableEq

/-- The globals of `shell.c` (`sus_children`, `child`, `sus_child_size`) and the
process state the engine acts on. -/
structure Engine where
  sus_children : List Int
  child : Int
  sus_child_size : Int
  fds : Table
  pipes : Nat
  forks : List Int
  log : List Event
  deriving DecidableEq

namespace Engine

/-- The globals as the C initialisers leave them: `pid_t sus_children[256]`
zeroed, `child = -1`, `sus_child_size = -1`. -/
def start (fds : Table) (forks : List Int) : Engine :=
  { sus_children := List.replicate 256 0, child := -1, sus_child_size := -1,
    fds := fds, pipes := 0, forks := forks, log := [] }

/-- Append one event to the log. -/
def emit (s : Engine) (e : Event) : Engine :=
  { s with log := s.log ++ [e] }

/-- The engine state with its descriptor table left out: two states agree on
everything but their tables when their `no_fds` are equal. -/
def no_fds (s : Engine) : Engine :=
  { s with fds := [] }

/-- The call `fork()`: the next result of the list, failure when none is left. -/
def fork (s : Engine) : Int × Engine :=
  match s.forks with
  | [] => (-1, s)
  | r :: rest => (r, { s with forks := rest })

/-- The call `open` on the engine's table, where a slot below the limit is free. -/
def sys_open (s : Engine) (r : Option File) : Int × Engine :=
  ((Shell.sys_open s.fds r).1, { s with fds := (Shell.sys_open s.fds r).2 })

/-- The call `open` on the engine's table, under the descriptor limit. -/
def sys_open_lim (s : Engine) (nofile : Nat) (r : Option File) : Int × Engine :=
  ((Shell.sys_open_lim nofile s.fds r).1,
    { s with fds := (Shell.sys_open_lim nofile s.fds r).2 })

/-- The call `dup` on the engine's table, under the descriptor limit. -/
def sys_dup (s : Engine) (nofile : Nat) (oldfd : Int) : Int × Engine :=
  ((Shell.sys_dup nofile s.fds oldfd).1, { s with fds := (Shell.sys_dup nofile s.fds oldfd).2 })

/-- The call `dup2` on the engine's table, onto a descriptor below the limit. -/
def sys_dup2 (s : Engine) (oldfd newfd : Int) : Int × Engine :=
  ((Shell.sys_dup2 s.fds oldfd newfd).1, { s with fds := (Shell.sys_dup2 s.fds oldfd newfd).2 })

/-- The call `dup2` on the engine's table, under the descriptor limit. -/
def sys_dup2_lim (s : Engine) (nofile : Nat) (oldfd newfd : Int) : Int × Engine :=
  ((Shell.sys_dup2_lim nofile s.fds oldfd newfd).1,
    { s with fds := (Shell.sys_dup2_lim nofile s.fds oldfd newfd).2 })

/-- The call `close` on the engine's table. -/
def sys_close (s : Engine) (fd : Int) : Int × Engine :=
  ((Shell.sys_close s.fds fd).1, { s with fds := (Shell.sys_close s.fds fd).2 })

/-- The call `pipe(p)` where it succeeds: a new pipe, its read end in the lowest
free slot (`p[0]`), its write end in the next (`p[1]`). -/
def sys_pipe (s : Engine) : Int × Int × Engine :=
  let r := s.sys_open (some (File.pipe_read s.pipes))
  let w := r.2.sys_open (some (File.pipe_write s.pipes))
  (r.1, w.1, { w.2 with pipes := s.pipes + 1 })

end Engine

/-- How a piece of engine code ends: it returns to its caller, the process
calls `exit(status)`, the process image is replaced by `execvp`, or the C code
has no defined behaviour (an array indexed out of bounds). -/
inductive Outcome where
  | returned (s : Engine)
  | exited (status : Int) (s : Engine)
  | replaced (s : Engine)
  | undefined
  deriving DecidableEq

/-- Sequential composition: what follows runs only when control returns. -/
def Outcome.andThen (o : Outcome) (k : Engine → Outcome) : Outcome :=
  match o with
  | .returned s => k s
  | .exited n s => .exited n s
  | .replaced s => .replaced s
  | .undefined => .undefined

/-! ## Job stack and signal handlers (`shell.c` lines 26-46) -/

/-- The handler `stop_child` (SIGTSTP).  `none`: the store
`sus_children[++sus_child_size]` falls outside the array. -/
def stop_child (s : Engine) : Option Engine :=
  if s.child = -1 then some s
  else
    let i := s.sus_child_size + 1
    if 0 ≤ i ∧ i.toNat < s.sus_children.length then
      some { s with
        sus_child_size := i
        sus_children := s.sus_children.set i.toNat s.child
        log := s.log ++ [Event.killpg s.child Signal.SIGTSTP]
        child := -1 }
    else none

/-- The function `resume_child`.  `none`: the load
`sus_children[sus_child_size--]` falls outside the array. -/
def resume_child (s : Engine) : Option Engine :=
  let i := s.sus_child_size
  if 0 ≤ i ∧ i.toNat < s.sus_children.length then
    let c := s.sus_children.getD i.toNat 0
    some { s with
      child := c
      sus_child_size := i - 1
      log := s.log ++ [Event.killpg c Signal.SIGCONT] }
  else none

/-- The handler `ignore` (SIGINT). -/
def ignore (s : Engine) : Engine :=
  if s.child ≠ -1 then s.emit (Event.kill s.child Signal.SIGKILL) else s

/-! ## The syntax tree -/

/-- Modelled from the spec: the redirection modes of the absent `parser/ast.h`
(spec section 3: Input, Output, Append, DuplicateFd), under the names
`exec_redirect` tests `node->redirect.mode` against. -/
inductive RedirectMode where
  | REDIRECT_DUP
  | REDIRECT_INPUT
  | REDIRECT_OUTPUT
  | REDIRECT_APPEND
  deriving DecidableEq

/-- Modelled from the spec: the fields of `node->redirect` that `exec_redirect`
reads (the declaration is in the absent `parser/ast.h`). -/
structure Redirect where
  mode : RedirectMode
  fd : Int
  fd2 : Int
  target : String
  deriving DecidableEq

mutual
/-- Modelled from the spec: the syntax tree of the absent `parser/ast.h`, one
constructor for each `node->type` that `run_command` dispatches on.  The counts
`argc` and `n_parts` are the lengths of `argv` and `parts`. -/
inductive Node where
  | command (program : String) (argv : List String)
  | pipe (parts : Parts)
  | sequence (first second : Node)
  | redirect (r : Redirect) (child : Node)
  | subshell (child : Node)
  | detach (child : Node)
/-- The stages of a pipe node, in order. -/
inductive Parts where
  | nil
  | cons (head : Node) (tail : Parts)
end

/-- The number of stages, `node->pipe.n_parts`. -/
def Parts.length : Parts → Nat
  | .nil => 0
  | .cons _ tail => tail.length + 1

/-! ## The operating system's answers -/

/-- The three flag sets `exec_redirect` passes to `open`. -/
inductive OpenFlags where
  | O_CREAT_WRONLY_TRUNC
  | O_CREAT_APPEND_WRONLY
  | O_RDONLY
  deriving DecidableEq

/-- What the system answers: the descriptor limit of the process
(`RLIMIT_NOFILE`), the file `open` yields (`none`: the file system refuses the
path), and whether `chdir`, `putenv`, `unsetenv` and `execvp` succeed. -/
structure OS where
  nofile : Nat
  open_file : String → OpenFlags → Option File
  chdir_ok : Option String → Bool
  putenv_ok : Option String → Bool
  unsetenv_ok : Option String → Bool
  execvp_ok : String → Bool

/-- The descriptor `STDIN` of `shell.c`. -/
def STDIN : Int := 0

/-- The descriptor `STDOUT` of `shell.c`. -/
def STDOUT : Int := 1

/-- The descriptor `STDERR` of `shell.c`. -/
def STDERR : Int := 2

/-! ## The C library's `atoi` -/

/-- The C library's `isspace`, in the C locale. -/
def isspace (c : Char) : Bool :=
  c = ' ' || c = '\t' || c = '\n' || c = '\x0b' || c = '\x0c' || c = '\r'

/-- The value of the leading decimal digits, after `acc`. -/
def atoi_digits : Int → List Char → Int
  | acc, [] => acc
  | acc, c :: cs =>
    if c.isDigit then atoi_digits (acc * 10 + ((c.toNat - 48 : Nat) : Int)) cs else acc

/-- An optional sign, then the digits. -/
def atoi_signed : List Char → Int
  | '-' :: cs => - atoi_digits 0 cs
  | '+' :: cs => atoi_digits 0 cs
  | cs => atoi_digits 0 cs

/-- Leading white space is skipped. -/
def atoi_skip : List Char → Int
  | [] => 0
  | c :: cs => if isspace c then atoi_skip cs else atoi_signed (c :: cs)

/-- The C library's `atoi`: the value of the initial decimal numeral; `none`
when it is not representable as an `int` (undefined behaviour in ISO C). -/
def atoi (s : String) : Option Int :=
  let v := atoi_skip s.data
  if -2147483648 ≤ v ∧ v ≤ 2147483647 then some v else none

/-! ## `exec_command` (`shell.c` lines 209-254) -/

/-- The guarded call of the `fg` and `bg` branches:
`if (sus_child_size != -1) resume_child();`. -/
def resume_if_any (s : Engine) : Option Engine :=
  if s.sus_child_size ≠ -1 then resume_child s else some s

/-- The function `exec_command` on a command node (`argc` is `argv.length`;
`argv[1]` is `NULL`, here `none`, when there is no argument).  `putenv(NULL)`
dereferences the null pointer: no defined behaviour. -/
def exec_command (os : OS) (program : String) (argv : List String) (s : Engine) : Outcome :=
  if program = "exit" then
    if argv.length = 2 then
      match atoi (argv.getD 1 "") with
      | some n => .exited n s
      | none => .undefined
    else .returned (s.emit (Event.printf "usage: exit <exit code>\n"))
  else if program = "cd" then
    let s1 := s.emit (Event.chdir argv[1]?)
    .returned (if os.chdir_ok argv[1]? then s1 else s1.emit (Event.perror "error"))
  else if program = "set" then
    if argv[1]? = none then .undefined
    else
      let s1 := s.emit (Event.putenv argv[1]?)
      .returned (if os.putenv_ok argv[1]? then s1 else s1.emit (Event.perror "set"))
  else if program = "unset" then
    let s1 := s.emit (Event.unsetenv argv[1]?)
    .returned (if os.unsetenv_ok argv[1]? then s1 else s1.emit (Event.perror "unset"))
  else if program = "fg" then
    match resume_if_any s with
    | none => .undefined
    | some s1 => .returned (s1.emit (Event.waitpid (-1) WaitOption.WUNTRACED))
  else if program = "bg" then
    match resume_if_any s with
    | none => .undefined
    | some s1 => .returned s1
  else
    let f := s.fork
    let s1 := { f.2 with child := f.1 }
    if f.1 = -1 then .returned (s1.emit (Event.perror "fork"))
    else if f.1 = 0 then
      let s2 := (s1.emit (Event.setpgid 0 0)).emit (Event.execvp program argv)
      if os.execvp_ok program then .replaced s2
      else .exited 1 (s2.emit (Event.perror program))
    else .returned (s1.emit (Event.waitpid f.1 WaitOption.WUNTRACED))

/-! ## `exec_redirect` (`shell.c` lines 160-207) -/

/-- The statement `if (dup2(oldfd, newfd) == -1) perror("dup2");`. -/
def dup2_or_perror (s : Engine) (nofile : Nat) (oldfd newfd : Int) : Engine :=
  let d := s.sys_dup2_lim nofile oldfd newfd
  if d.1 = -1 then d.2.emit (Event.perror "dup2") else d.2

/-- The function `exec_redirect`; `run_child` is the call
`run_command(node->redirect.child)`.  The results of the `dup` calls are used
untested, as in the code. -/
def exec_redirect (os : OS) (r : Redirect) (run_child : Engine → Outcome) (s : Engine) :
    Outcome :=
  let fd := r.fd
  if fd = -1 then
    let o := s.sys_open_lim os.nofile (os.open_file r.target OpenFlags.O_CREAT_WRONLY_TRUNC)
    let file := o.1
    let d1 := o.2.sys_dup os.nofile STDOUT
    let saved_stdout := d1.1
    let d2 := d1.2.sys_dup os.nofile STDERR
    let saved_stderr := d2.1
    let s1 := dup2_or_perror d2.2 os.nofile file STDOUT
    let s2 := dup2_or_perror s1 os.nofile STDOUT STDERR
    (run_child s2).andThen fun s3 =>
      let s4 := dup2_or_perror s3 os.nofile saved_stderr STDERR
      let s5 := dup2_or_perror s4 os.nofile saved_stdout STDOUT
      .returned (s5.sys_close file).2
  else
    let o :=
      match r.mode with
      | .REDIRECT_OUTPUT =>
        (s.sys_open_lim os.nofile (os.open_file r.target OpenFlags.O_CREAT_WRONLY_TRUNC),
          STDOUT)
      | .REDIRECT_APPEND =>
        (s.sys_open_lim os.nofile (os.open_file r.target OpenFlags.O_CREAT_APPEND_WRONLY),
          STDOUT)
      | .REDIRECT_INPUT =>
        (s.sys_open_lim os.nofile (os.open_file r.target OpenFlags.O_RDONLY), STDIN)
      | .REDIRECT_DUP =>
        (s.sys_dup os.nofile r.fd2, fd)
    let file := o.1.1
    let stream := o.2
    let s1 := if file = -1 then o.1.2.emit (Event.perror "error") else o.1.2
    let d := s1.sys_dup os.nofile stream
    let saved_stdin := d.1
    let d2 := d.2.sys_dup2_lim os.nofile file stream
    if d2.1 < 0 then
      .returned ((d2.2.emit (Event.perror "error")).sys_close file).2
    else
      (run_child d2.2).andThen fun s2 =>
        let d3 := s2.sys_dup2_lim os.nofile saved_stdin stream
        let s3 := if d3.1 < 0 then d3.2.emit (Event.perror "error") else d3.2
        .returned (s3.sys_close file).2

/-! ## `exec_pipe` (`shell.c` lines 107-145) -/

/-- The first loop of `exec_pipe`: `pipe(pipefd + i * 2)` for `n_pipes` pipes;
the result lists `pipefd[0]`, `pipefd[1]`, ...  Every `pipe()` succeeds here,
so the `perror("pipe")` branch is not taken. -/
def open_pipes : Nat → Engine → List Int × Engine
  | 0, s => ([], s)
  | k + 1, s =>
    let p := s.sys_pipe
    let rest := open_pipes k p.2.2
    (p.1 :: p.2.1 :: rest.1, rest.2)

/-- The loop `for (j = 0; j < count; j++) close(pipefd[j]);`. -/
def close_pipes (pipefd : List Int) (count : Nat) (s : Engine) : Engine :=
  (List.range count).foldl (fun s1 j => (s1.sys_close (pipefd.getD j (-1))).2) s

/-- The child branch of the fork loop up to the call of `run_command`: the two
`dup2` calls and the loop closing every pipe descriptor. -/
def pipe_child (parts : Nat) (pipefd : List Int) (i commandc : Nat) (s : Engine) : Engine :=
  let n_pipes := parts - 1
  let s1 := if i ≠ 0 then (s.sys_dup2 (pipefd.getD ((commandc - 1) * 2) (-1)) STDIN).2 else s
  let s2 :=
    if i ≠ n_pipes then (s1.sys_dup2 (pipefd.getD (commandc * 2 + 1) (-1)) STDOUT).2 else s1
  close_pipes pipefd (2 * (parts - 1)) s2

/-- The fork loop of `exec_pipe`, `todo` iterations from stage `i`; `run_stage i`
is the call `run_command(node->pipe.parts[i])`. -/
def pipe_fork_loop (run_stage : Nat → Engine → Outcome) (parts : Nat) (pipefd : List Int) :
    Nat → Nat → Nat → Engine → Outcome
  | 0, _, _, s => .returned s
  | todo + 1, i, commandc, s =>
    let f := s.fork
    if f.1 = 0 then
      (run_stage i (pipe_child parts pipefd i commandc f.2)).andThen fun s1 => .exited 1 s1
    else
      pipe_fork_loop run_stage parts pipefd todo (i + 1) (commandc + 1)
        (if f.1 < 0 then f.2.emit (Event.perror "fork") else f.2)

/-- The last loop of `exec_pipe`: `parts` calls of `waitpid(-1, NULL, WUNTRACED)`. -/
def wait_stages (parts : Nat) (s : Engine) : Engine :=
  { s with log := s.log ++ List.replicate parts (Event.waitpid (-1) WaitOption.WUNTRACED) }

/-- The function `exec_pipe` on a pipe node of `n_parts` stages.  With no stage
`n_pipes = parts - 1` wraps around in `size_t` and the first loop runs off the
empty array `pipefd`: no defined behaviour. -/
def exec_pipe (run_stage : Nat → Engine → Outcome) (n_parts : Nat) (s : Engine) : Outcome :=
  let parts := n_parts
  if parts = 0 then .undefined
  else
    let n_pipes := parts - 1
    let p := open_pipes n_pipes s
    let pipefd := p.1
    (pipe_fork_loop run_stage parts pipefd parts 0 0 p.2).andThen fun s1 =>
      .returned (wait_stages parts (close_pipes pipefd (2 * n_pipes) s1))

/-! ## `exec_subshell`, `exec_detach` (`shell.c` lines 256-281) -/

/-- The function `exec_subshell`; `run_child` is `run_command(node->detach.child)`. -/
def exec_subshell (run_child : Engine → Outcome) (s : Engine) : Outcome :=
  let f := s.fork
  if f.1 = -1 then .returned (f.2.emit (Event.perror "fork"))
  else if f.1 = 0 then (run_child f.2).andThen fun s1 => .exited 0 s1
  else .returned (f.2.emit (Event.waitpid f.1 WaitOption.WUNTRACED))

/-- The function `exec_detach`: as `exec_subshell`, but the parent does not wait. -/
def exec_detach (run_child : Engine → Outcome) (s : Engine) : Outcome :=
  let f := s.fork
  if f.1 = -1 then .returned (f.2.emit (Event.perror "fork"))
  else if f.1 = 0 then (run_child f.2).andThen fun s1 => .exited 0 s1
  else .returned f.2

/-! ## `run_command` and `exec_sequence` (`shell.c` lines 147-158, 284-310) -/

mutual
/-- The function `run_command`: the dispatch on `node->type`.  For a sequence
node it is the body of `exec_sequence`: `run_command(first)`, then the loop. -/
def run_command (os : OS) : Node → Engine → Outcome
  | .pipe parts, s => exec_pipe (fun i s1 => run_part os parts i s1) parts.length s
  | .sequence first second, s =>
    (run_command os first s).andThen fun s1 => exec_sequence_loop os second s1
  | .redirect r child, s => exec_redirect os r (fun s1 => run_command os child s1) s
  | .command program argv, s => exec_command os program argv s
  | .subshell child, s => exec_subshell (fun s1 => run_command os child s1) s
  | .detach child, s => exec_detach (fun s1 => run_command os child s1) s
/-- The loop of `exec_sequence` and the call after it, on the current
`node->sequence.second`.  While it is a sequence node the loop moves its two
children into `node` and runs the new `first`; when it no longer is,
`run_command(node->sequence.second)` dispatches on its type (the five cases
below are that dispatch). -/
def exec_sequence_loop (os : OS) : Node → Engine → Outcome
  | .sequence first second, s =>
    (run_command os first s).andThen fun s1 => exec_sequence_loop os second s1
  | .pipe parts, s => exec_pipe (fun i s1 => run_part os parts i s1) parts.length s
  | .redirect r child, s => exec_redirect os r (fun s1 => run_command os child s1) s
  | .command program argv, s => exec_command os program argv s
  | .subshell child, s => exec_subshell (fun s1 => run_command os child s1) s
  | .detach child, s => exec_detach (fun s1 => run_command os child s1) s
/-- The call `run_command(node->pipe.parts[i])`; past the end of the array there
is no defined behaviour. -/
def run_part (os : OS) : Parts → Nat → Engine → Outcome
  | .nil, _, _ => .undefined
  | .cons head _, 0, s => run_command os head s
  | .cons _ tail, i + 1, s => run_part os tail i s
end

/-- The function `exec_sequence` on a sequence node. -/
def exec_sequence (os : OS) (first second : Node) (s : Engine) : Outcome :=
  (run_command os first s).andThen fun s1 => exec_sequence_loop os second s1

/-! ## Definitions used to state and prove the properties -/

/-- The part of the default case of `exec_redirect` after `file` and `stream`
are chosen (`shell.c` lines 194-203), for the proofs. -/
def redirect_tail (nofile : Nat) (o : Int × Engine) (stream : Int)
    (run_child : Engine → Outcome) : Outcome :=
  let file := o.1
  let s1 := if file = -1 then o.2.emit (Event.perror "error") else o.2
  let d := s1.sys_dup nofile stream
  let saved_stdin := d.1
  let d2 := d.2.sys_dup2_lim nofile file stream
  if d2.1 < 0 then
    .returned ((d2.2.emit (Event.perror "error")).sys_close file).2
  else
    (run_child d2.2).andThen fun s2 =>
      let d3 := s2.sys_dup2_lim nofile saved_stdin stream
      let s3 := if d3.1 < 0 then d3.2.emit (Event.perror "error") else d3.2
      .returned (s3.sys_close file).2

/-- The state in which the child of a combined redirection starts
(`shell.c` lines 167-172), for the proofs. -/
def combined_mid (os : OS) (r : Redirect) (s : Engine) : Engine :=
  dup2_or_perror (dup2_or_perror
    (((s.sys_open_lim os.nofile
      (os.open_file r.target OpenFlags.O_CREAT_WRONLY_TRUNC)).2.sys_dup os.nofile
      STDOUT).2.sys_dup os.nofile STDERR).2 os.nofile
    (s.sys_open_lim os.nofile (os.open_file r.target OpenFlags.O_CREAT_WRONLY_TRUNC)).1 STDOUT)
    os.nofile STDOUT STDERR

/-- What a combined redirection does after its child (`shell.c` lines 174-176),
for the proofs. -/
def combined_rest (os : OS) (r : Redirect) (s : Engine) (s3 : Engine) : Outcome :=
  .returned ((dup2_or_perror (dup2_or_perror s3 os.nofile
    (((s.sys_open_lim os.nofile
      (os.open_file r.target OpenFlags.O_CREAT_WRONLY_TRUNC)).2.sys_dup os.nofile
      STDOUT).2.sys_dup os.nofile STDERR).1 STDERR) os.nofile
    ((s.sys_open_lim os.nofile
      (os.open_file r.target OpenFlags.O_CREAT_WRONLY_TRUNC)).2.sys_dup os.nofile
      STDOUT).1 STDOUT).sys_close
    (s.sys_open_lim os.nofile (os.open_file r.target OpenFlags.O_CREAT_WRONLY_TRUNC)).1).2

/-- The standard slot(s) `exec_redirect` overwrites: both output slots when
`fd == -1`, otherwise the `stream` the default case selects. -/
def overwritten (r : Redirect) : List Int :=
  if r.fd = -1 then [STDOUT, STDERR]
  else
    match r.mode with
    | .REDIRECT_OUTPUT => [STDOUT]
    | .REDIRECT_APPEND => [STDOUT]
    | .REDIRECT_INPUT => [STDIN]
    | .REDIRECT_DUP => [r.fd]

/-- The open file the replacement descriptor of `exec_redirect` refers to:
what `open` yields for the target or, for a duplication, what `fd2` refers to;
`none` when that `open` or `dup` fails, be it for the descriptor limit. -/
def replacement (os : OS) (r : Redirect) (t : Table) : Option File :=
  if t.lowest_free < os.nofile then
    if r.fd = -1 then os.open_file r.target OpenFlags.O_CREAT_WRONLY_TRUNC
    else
      match r.mode with
      | .REDIRECT_OUTPUT => os.open_file r.target OpenFlags.O_CREAT_WRONLY_TRUNC
      | .REDIRECT_APPEND => os.open_file r.target OpenFlags.O_CREAT_APPEND_WRONLY
      | .REDIRECT_INPUT => os.open_file r.target OpenFlags.O_RDONLY
      | .REDIRECT_DUP => t.lookup r.fd2
  else none

/-- A session on a terminal: descriptors 0, 1 and 2 open on three files. -/
def demo_fds : Table := [some (File.inode 0), some (File.inode 1), some (File.inode 2)]

/-- A system with the usual descriptor limit of 1024, where `out.txt` can be
opened (as file 7) and nothing else can, and every other call succeeds. -/
def demo_os : OS :=
  { nofile := 1024
    open_file := fun path _ => if path = "out.txt" then some (File.inode 7) else none
    chdir_ok := fun _ => true
    putenv_ok := fun _ => true
    unsetenv_ok := fun _ => true
    execvp_ok := fun _ => true }

/-- The system `demo_os` with the descriptor limit lowered to 4 (`ulimit -n 4`). -/
def demo_os_four : OS :=
  { demo_os with nofile := 4 }

/-- The system `demo_os` with the descriptor limit lowered to 6 (`ulimit -n 6`). -/
def demo_os_six : OS :=
  { demo_os with nofile := 6 }

/-- The engine right after start-up on `demo_fds`, where `fork` will yield the
pids 100, 101, 102. -/
def demo_engine : Engine := Engine.start demo_fds [100, 101, 102]

/-- The redirection of `cmd > out.txt`. -/
def demo_output : Redirect :=
  { mode := RedirectMode.REDIRECT_OUTPUT, fd := 1, fd2 := 0, target := "out.txt" }

/-- The redirection of `cmd 2> out.txt`. -/
def demo_stderr : Redirect :=
  { mode := RedirectMode.REDIRECT_OUTPUT, fd := 2, fd2 := 0, target := "out.txt" }

/-- The redirection of `cmd &> /missing/out.txt`, whose target cannot be opened. -/
def demo_combined_missing : Redirect :=
  { mode := RedirectMode.REDIRECT_OUTPUT, fd := -1, fd2 := 0, target := "/missing/out.txt" }

/-- The external command `ls`. -/
def demo_ls : Node := Node.command "ls" ["ls"]

/-- The command line `ls > out.txt; ls > out.txt; ls > out.txt`. -/
def demo_three_redirects : Node :=
  Node.sequence (Node.redirect demo_output demo_ls)
    (Node.sequence (Node.redirect demo_output demo_ls) (Node.redirect demo_output demo_ls))

/-- The command `exit 0`. -/
def demo_exit : Node := Node.command "exit" ["exit", "0"]

/-- The handler `stop_child` running while `p` is the foreground job: `child`
holds `p`, as `child = fork()` of `exec_command` left it. -/
def stop_job (p : Int) (s : Engine) : Option Engine :=
  stop_child { s with child := p }

/-- One stop for each process group of the list, in order. -/
def stop_jobs : List Int → Engine → Option Engine
  | [], s => some s
  | p :: ps, s => (stop_job p s).bind (stop_jobs ps)

/-- The name of the builtin: `fg` for `true`, `bg` for `false`. -/
def resume_builtin (fg : Bool) : String :=
  if fg then "fg" else "bg"

/-- The builtins `fg` and `bg` issued one after the other through `exec_command`. -/
def resume_jobs (os : OS) : List Bool → Engine → Outcome
  | [], s => .returned s
  | fg :: rest, s =>
    (exec_command os (resume_builtin fg) [resume_builtin fg] s).andThen (resume_jobs os rest)

/-- The process group a log entry continues, if it is a `killpg(_, SIGCONT)`. -/
def continued_group : Event → Option Int
  | .killpg p .SIGCONT => some p
  | _ => none

/-- The process groups sent the continue signal, in the order they were sent it. -/
def continued (log : List Event) : List Int :=
  log.filterMap continued_group

/-- The leaves of a tree of sequence nodes (its nodes that are not sequence
nodes), from left to right. -/
def leaves : Node → List Node
  | .sequence first second => leaves first ++ leaves second
  | .command program argv => [.command program argv]
  | .pipe parts => [.pipe parts]
  | .redirect r child => [.redirect r child]
  | .subshell child => [.subshell child]
  | .detach child => [.detach child]

/-- The nodes of a list run by `run_command` one after the other, each exactly
once, the next one starting when the one before returns. -/
def run_all (os : OS) : List Node → Engine → Outcome
  | [], s => .returned s
  | n :: rest, s => (run_command os n s).andThen (run_all os rest)

/-- The sequence node as the spec words it: run `first`, then `second`,
unconditionally, the children being run in the same way. -/
def sequence_spec (os : OS) : Node → Engine → Outcome
  | .sequence first second, s => (sequence_spec os first s).andThen (sequence_spec os second)
  | .command program argv, s => run_command os (.command program argv) s
  | .pipe parts, s => run_command os (.pipe parts) s
  | .redirect r child, s => run_command os (.redirect r child) s
  | .subshell child, s => run_command os (.subshell child) s
  | .detach child, s => run_command os (.detach child) s

/-! ## Lemmas on the descriptor table and the system calls -/

namespace Table

theorem get_install (t : Table) (n m : Nat) (v : Option File) :
    get (install t n v) m = if m = n then v else get t m := by
  induction t generalizing n m with
  | nil =>
    induction n generalizing m with
    | zero => cases m <;> simp [install, get]
    | succ n ih => cases m <;> simp [install, get, ih]
  | cons x t ih =>
    cases n <;> cases m <;> simp [install, get, ih]

theorem get_lowest_free (t : Table) : get t (lowest_free t) = none := by
  induction t with
  | nil => rfl
  | cons x t ih => cases x <;> simp [lowest_free, get, ih]

/-- Every slot below `lowest_free` is open: it is the lowest free slot. -/
theorem get_below_lowest_free (t : Table) (m : Nat) (h : m < lowest_free t) :
    get t m ≠ none := by
  induction t generalizing m with
  | nil => simp [lowest_free] at h
  | cons x t ih =>
    cases x with
    | none => simp [lowest_free] at h
    | some f =>
      cases m with
      | zero => simp [get]
      | succ m =>
        simp only [lowest_free, Nat.add_lt_add_iff_right] at h
        simpa [get] using ih m h

theorem lookup_natCast (t : Table) (n : Nat) : lookup t (n : Int) = get t n := by
  simp [lookup]

theorem lookup_install (t : Table) (a b : Int) (v : Option File) (ha : 0 ≤ a) :
    lookup (install t a.toNat v) b = if b = a then v else lookup t b := by
  unfold lookup
  by_cases hb : b < 0
  · have : b ≠ a := by omega
    simp [hb, this]
  · simp only [hb, if_false, get_install]
    have : (b.toNat = a.toNat) ↔ b = a := by omega
    simp [this]

theorem lowest_free_le_length (t : Table) : lowest_free t ≤ t.length := by
  induction t with
  | nil => simp [lowest_free]
  | cons x t ih => cases x <;> simp [lowest_free, ih]

theorem length_install_le (t : Table) (n : Nat) (v : Option File) (h : n ≤ t.length) :
    (install t n v).length ≤ t.length + 1 := by
  induction t generalizing n with
  | nil =>
    have : n = 0 := by simpa using h
    subst this
    simp [install]
  | cons x t ih =>
    cases n with
    | zero => simp [install]
    | succ n =>
      simp only [List.length_cons, Nat.add_le_add_iff_right] at h
      simpa [install] using ih n h

theorem get_some_lt_length (t : Table) (n : Nat) (f : File) (h : get t n = some f) :
    n < t.length := by
  induction t generalizing n with
  | nil => simp [get] at h
  | cons x t ih =>
    cases n with
    | zero => simp
    | succ n => simpa using ih n (by simpa [get] using h)

theorem lookup_some_lt_length (t : Table) (fd : Int) (f : File) (h : lookup t fd = some f) :
    0 ≤ fd ∧ fd.toNat < t.length := by
  unfold lookup at h
  by_cases hneg : fd < 0
  · simp [hneg] at h
  · simp only [hneg, if_false] at h
    exact ⟨by omega, get_some_lt_length t _ f h⟩

end Table

theorem sys_open_spec (t : Table) (f : File) :
    ∃ n : Int, 0 ≤ n ∧ t.lookup n = none ∧ (sys_open t (some f)).1 = n ∧
      ∀ b, (sys_open t (some f)).2.lookup b = if b = n then some f else t.lookup b := by
  refine ⟨(t.lowest_free : Int), by omega, ?_, rfl, ?_⟩
  · rw [Table.lookup_natCast, Table.get_lowest_free]
  · intro b
    have h := Table.lookup_install t (t.lowest_free : Int) b (some f) (by omega)
    simpa [sys_open] using h

theorem sys_open_lim_eq (nofile : Nat) (t : Table) (r : Option File)
    (hroom : t.lowest_free < nofile) : sys_open_lim nofile t r = sys_open t r := by
  simp [sys_open_lim, hroom]

theorem sys_open_lim_full (nofile : Nat) (t : Table) (r : Option File)
    (hfull : ¬ t.lowest_free < nofile) : sys_open_lim nofile t r = (-1, t) := by
  simp [sys_open_lim, hfull]

theorem sys_open_lim_none (nofile : Nat) (t : Table) : sys_open_lim nofile t none = (-1, t) := by
  unfold sys_open_lim
  split <;> rfl

theorem sys_open_lim_spec (nofile : Nat) (t : Table) (f : File)
    (hroom : t.lowest_free < nofile) :
    ∃ n : Int, 0 ≤ n ∧ t.lookup n = none ∧ (sys_open_lim nofile t (some f)).1 = n ∧
      ∀ b, (sys_open_lim nofile t (some f)).2.lookup b =
        if b = n then some f else t.lookup b := by
  rw [sys_open_lim_eq nofile t _ hroom]
  exact sys_open_spec t f

theorem sys_open_lim_length (nofile : Nat) (t : Table) (r : Option File) :
    (sys_open_lim nofile t r).2.length ≤ t.length + 1 := by
  unfold sys_open_lim
  split
  · cases r with
    | none => simp [sys_open]
    | some f => exact Table.length_install_le t _ _ (Table.lowest_free_le_length t)
  · simp

theorem sys_dup_spec (nofile : Nat) (t : Table) (oldfd : Int) (f : File)
    (h : t.lookup oldfd = some f) (hroom : t.lowest_free < nofile) :
    ∃ n : Int, 0 ≤ n ∧ t.lookup n = none ∧ (sys_dup nofile t oldfd).1 = n ∧
      ∀ b, (sys_dup nofile t oldfd).2.lookup b = if b = n then some f else t.lookup b := by
  refine ⟨(t.lowest_free : Int), by omega, ?_, ?_, ?_⟩
  · rw [Table.lookup_natCast, Table.get_lowest_free]
  · simp [sys_dup, h, hroom]
  · intro b
    have h2 := Table.lookup_install t (t.lowest_free : Int) b (some f) (by omega)
    simpa [sys_dup, h, hroom] using h2

/-- The call `dup` fails, and changes nothing, on a closed descriptor and when
no slot below the limit is free. -/
theorem sys_dup_fail (nofile : Nat) (t : Table) (oldfd : Int)
    (h : t.lookup oldfd = none ∨ ¬ t.lowest_free < nofile) :
    sys_dup nofile t oldfd = (-1, t) := by
  unfold sys_dup
  rcases h with h | h
  · simp [h]
  · cases t.lookup oldfd <;> simp [h]

theorem sys_dup_length (nofile : Nat) (t : Table) (oldfd : Int) :
    (sys_dup nofile t oldfd).2.length ≤ t.length + 1 := by
  unfold sys_dup
  cases t.lookup oldfd with
  | none => simp
  | some f =>
    simp only
    split
    · exact Table.length_install_le t _ _ (Table.lowest_free_le_length t)
    · simp

theorem sys_dup2_spec (t : Table) (oldfd newfd : Int) (f : File) (h : t.lookup oldfd = some f)
    (hn : 0 ≤ newfd) :
    (sys_dup2 t oldfd newfd).1 = newfd ∧
      ∀ b, (sys_dup2 t oldfd newfd).2.lookup b = if b = newfd then some f else t.lookup b := by
  have hn2 : ¬ newfd < 0 := by omega
  by_cases he : oldfd = newfd
  · subst he
    refine ⟨by simp [sys_dup2, h, hn2], ?_⟩
    intro b
    by_cases hb : b = oldfd
    · subst hb; simp [sys_dup2, h, hn2]
    · simp [sys_dup2, h, hn2, hb]
  · refine ⟨by simp [sys_dup2, h, hn2, he], ?_⟩
    intro b
    have h2 := Table.lookup_install t newfd b (some f) hn
    simpa [sys_dup2, h, hn2, he] using h2

theorem sys_dup2_closed (t : Table) (oldfd newfd : Int) (h : t.lookup oldfd = none) :
    sys_dup2 t oldfd newfd = (-1, t) := by
  simp [sys_dup2, h]

theorem sys_dup2_lim_eq (nofile : Nat) (t : Table) (oldfd newfd : Int)
    (hlt : newfd < (nofile : Int)) : sys_dup2_lim nofile t oldfd newfd = sys_dup2 t oldfd newfd := by
  have : ¬ (nofile : Int) ≤ newfd := by omega
  simp [sys_dup2_lim, this]

theorem sys_dup2_lim_spec (nofile : Nat) (t : Table) (oldfd newfd : Int) (f : File)
    (h : t.lookup oldfd = some f) (hn : 0 ≤ newfd) (hlt : newfd < (nofile : Int)) :
    (sys_dup2_lim nofile t oldfd newfd).1 = newfd ∧
      ∀ b, (sys_dup2_lim nofile t oldfd newfd).2.lookup b =
        if b = newfd then some f else t.lookup b := by
  rw [sys_dup2_lim_eq nofile t oldfd newfd hlt]
  exact sys_dup2_spec t oldfd newfd f h hn

theorem sys_dup2_lim_closed (nofile : Nat) (t : Table) (oldfd newfd : Int)
    (h : t.lookup oldfd = none) : sys_dup2_lim nofile t oldfd newfd = (-1, t) := by
  unfold sys_dup2_lim
  split
  · rfl
  · exact sys_dup2_closed t oldfd newfd h

theorem sys_close_spec (t : Table) (fd b : Int) :
    (sys_close t fd).2.lookup b = if b = fd then none else t.lookup b := by
  cases h : t.lookup fd with
  | none =>
    by_cases hb : b = fd
    · subst hb; simp [sys_close, h]
    · simp [sys_close, h, hb]
  | some f =>
    have hfd : 0 ≤ fd := by
      by_contra hneg
      have : fd < 0 := by omega
      simp [Table.lookup, this] at h
    have h2 := Table.lookup_install t fd b none hfd
    simpa [sys_close, h] using h2

theorem lookup_neg_one (t : Table) : t.lookup (-1) = none := by
  simp [Table.lookup]

@[simp] theorem emit_fds (s : Engine) (e : Event) : (s.emit e).fds = s.fds := rfl
@[simp] theorem sys_open_fst (s : Engine) (r : Option File) :
    (s.sys_open r).1 = (Shell.sys_open s.fds r).1 := rfl
@[simp] theorem sys_open_fds (s : Engine) (r : Option File) :
    (s.sys_open r).2.fds = (Shell.sys_open s.fds r).2 := rfl
@[simp] theorem sys_open_lim_fst (s : Engine) (nofile : Nat) (r : Option File) :
    (s.sys_open_lim nofile r).1 = (Shell.sys_open_lim nofile s.fds r).1 := rfl
@[simp] theorem sys_open_lim_fds (s : Engine) (nofile : Nat) (r : Option File) :
    (s.sys_open_lim nofile r).2.fds = (Shell.sys_open_lim nofile s.fds r).2 := rfl
@[simp] theorem sys_dup_fst (s : Engine) (nofile : Nat) (a : Int) :
    (s.sys_dup nofile a).1 = (Shell.sys_dup nofile s.fds a).1 := rfl
@[simp] theorem sys_dup_fds (s : Engine) (nofile : Nat) (a : Int) :
    (s.sys_dup nofile a).2.fds = (Shell.sys_dup nofile s.fds a).2 := rfl
@[simp] theorem sys_dup2_fst (s : Engine) (a b : Int) :
    (s.sys_dup2 a b).1 = (Shell.sys_dup2 s.fds a b).1 := rfl
@[simp] theorem sys_dup2_fds (s : Engine) (a b : Int) :
    (s.sys_dup2 a b).2.fds = (Shell.sys_dup2 s.fds a b).2 := rfl
@[simp] theorem sys_dup2_lim_fst (s : Engine) (nofile : Nat) (a b : Int) :
    (s.sys_dup2_lim nofile a b).1 = (Shell.sys_dup2_lim nofile s.fds a b).1 := rfl
@[simp] theorem sys_dup2_lim_fds (s : Engine) (nofile : Nat) (a b : Int) :
    (s.sys_dup2_lim nofile a b).2.fds = (Shell.sys_dup2_lim nofile s.fds a b).2 := rfl
@[simp] theorem sys_close_fds (s : Engine) (a : Int) :
    (s.sys_close a).2.fds = (Shell.sys_close s.fds a).2 := rfl

theorem fork_cons (s : Engine) (r : Int) (rest : List Int) (h : s.forks = r :: rest) :
    s.fork = (r, { s with forks := rest }) := by
  unfold Engine.fork
  rw [h]

theorem dup2_or_perror_fds (s : Engine) (nofile : Nat) (a b : Int) :
    (dup2_or_perror s nofile a b).fds = (Shell.sys_dup2_lim nofile s.fds a b).2 := by
  unfold dup2_or_perror
  dsimp only
  split <;> rfl

theorem dup2_or_perror_no_fds (s : Engine) (nofile : Nat) (a b : Int)
    (h : (Shell.sys_dup2_lim nofile s.fds a b).1 ≠ -1) :
    (dup2_or_perror s nofile a b).no_fds = s.no_fds := by
  unfold dup2_or_perror
  simp only [sys_dup2_lim_fst, h, if_false]
  rfl

theorem lookup_some_nonneg {t : Table} {fd : Int} {f : File} (h : t.lookup fd = some f) :
    0 ≤ fd := by
  by_contra hneg
  have : fd < 0 := by omega
  simp [Table.lookup, this] at h

/-- A failed `dup` leaves the engine as it was and yields -1. -/
theorem engine_sys_dup_fail (s : Engine) (nofile : Nat) (oldfd : Int)
    (h : s.fds.lookup oldfd = none ∨ ¬ s.fds.lowest_free < nofile) :
    s.sys_dup nofile oldfd = (-1, s) := by
  unfold Engine.sys_dup
  rw [sys_dup_fail nofile s.fds oldfd h]

/-! ## `exec_redirect`: claims C2, C5, C6 and C7 -/

theorem exec_redirect_default (os : OS) (r : Redirect) (run_child : Engine → Outcome)
    (s : Engine) (h : r.fd ≠ -1) :
    exec_redirect os r run_child s =
      match r.mode with
      | .REDIRECT_OUTPUT =>
        redirect_tail os.nofile
          (s.sys_open_lim os.nofile (os.open_file r.target OpenFlags.O_CREAT_WRONLY_TRUNC))
          STDOUT run_child
      | .REDIRECT_APPEND =>
        redirect_tail os.nofile
          (s.sys_open_lim os.nofile (os.open_file r.target OpenFlags.O_CREAT_APPEND_WRONLY))
          STDOUT run_child
      | .REDIRECT_INPUT =>
        redirect_tail os.nofile
          (s.sys_open_lim os.nofile (os.open_file r.target OpenFlags.O_RDONLY)) STDIN run_child
      | .REDIRECT_DUP => redirect_tail os.nofile (s.sys_dup os.nofile r.fd2) r.fd run_child := by
  unfold exec_redirect
  simp only [h, if_false]
  cases r.mode <;> rfl

/-- The save/restore bracket on the success path, where the `dup` that saves
`stream` finds a slot below the limit: the child starts in a state `mid` where
`stream` refers to the new file, a fresh slot `sv` holds the saved duplicate
and nothing else changed; what follows the child puts in `stream` what `sv`
refers to and closes `file`. -/
theorem redirect_tail_ok (nofile : Nat) (o : Int × Engine) (stream : Int) (f orig : File)
    (hfile : o.2.fds.lookup o.1 = some f) (hstream : o.2.fds.lookup stream = some orig)
    (hroom : o.2.fds.lowest_free < nofile) (hs : stream < (nofile : Int)) :
    ∃ (sv : Int) (mid : Engine) (k : Engine → Outcome),
      o.2.fds.lookup sv = none ∧ mid.no_fds = o.2.no_fds ∧
      (∀ b, mid.fds.lookup b =
        if b = stream then some f else if b = sv then some orig else o.2.fds.lookup b) ∧
      (∀ run_child, redirect_tail nofile o stream run_child = (run_child mid).andThen k) ∧
      (∀ s2, s2.fds.lookup sv = some orig → ∃ s3, k s2 = .returned s3 ∧
        ∀ b, s3.fds.lookup b =
          if b = o.1 then none else if b = stream then some orig else s2.fds.lookup b) := by
  have hf0 : 0 ≤ o.1 := lookup_some_nonneg hfile
  have hs0 : 0 ≤ stream := lookup_some_nonneg hstream
  have hne : o.1 ≠ -1 := by omega
  obtain ⟨sv, hsv0, hsvfree, hsv1, hsv2⟩ := sys_dup_spec nofile o.2.fds stream orig hstream hroom
  have hfile2 : (sys_dup nofile o.2.fds stream).2.lookup o.1 = some f := by
    rw [hsv2]
    have : o.1 ≠ sv := by
      intro h; rw [h] at hfile; rw [hsvfree] at hfile; cases hfile
    simp [this, hfile]
  obtain ⟨hd1, hd2⟩ :=
    sys_dup2_lim_spec nofile (sys_dup nofile o.2.fds stream).2 o.1 stream f hfile2 hs0 hs
  refine ⟨sv, (((if o.1 = -1 then o.2.emit (Event.perror "error") else o.2).sys_dup nofile
    stream).2.sys_dup2_lim nofile o.1 stream).2, fun s2 =>
      .returned (((if (s2.sys_dup2_lim nofile sv stream).1 < 0 then
        (s2.sys_dup2_lim nofile sv stream).2.emit (Event.perror "error")
        else (s2.sys_dup2_lim nofile sv stream).2).sys_close o.1).2), hsvfree, ?_, ?_, ?_, ?_⟩
  · simp only [hne, if_false]
    rfl
  · intro b
    simp only [hne, if_false, sys_dup2_lim_fds, sys_dup_fds]
    rw [hd2, hsv2]
  · intro run_child
    unfold redirect_tail
    simp only [hne, if_false, sys_dup2_lim_fst, sys_dup_fds, sys_dup_fst, hd1, hsv1]
    have : ¬ stream < 0 := by omega
    simp only [this, if_false]
  · intro s2 hs2
    obtain ⟨he1, he2⟩ := sys_dup2_lim_spec nofile s2.fds sv stream orig hs2 hs0 hs
    refine ⟨_, rfl, ?_⟩
    intro b
    have : ¬ stream < 0 := by omega
    simp only [sys_dup2_lim_fst, he1, this, if_false, sys_close_fds, sys_dup2_lim_fds]
    rw [sys_close_spec, he2]

/-- The bracket of the default case where the `dup` that saves `stream` fails
(the slot is closed, or no slot below the limit is free): the child starts
with `stream` on the new file and nothing else changed, and what follows the
child leaves `stream` where the child left it, since `dup2(-1, stream)` fails. -/
theorem redirect_tail_unsaved (nofile : Nat) (o : Int × Engine) (stream : Int) (f : File)
    (hfile : o.2.fds.lookup o.1 = some f) (hs0 : 0 ≤ stream) (hs : stream < (nofile : Int))
    (hfail : o.2.fds.lookup stream = none ∨ ¬ o.2.fds.lowest_free < nofile) :
    ∃ (mid : Engine) (k : Engine → Outcome),
      (∀ run_child, redirect_tail nofile o stream run_child = (run_child mid).andThen k) ∧
      (∀ b, mid.fds.lookup b = if b = stream then some f else o.2.fds.lookup b) ∧
      (∀ s2, ∃ s3, k s2 = .returned s3 ∧
        ∀ b, s3.fds.lookup b = if b = o.1 then none else s2.fds.lookup b) := by
  have hf0 : 0 ≤ o.1 := lookup_some_nonneg hfile
  have hne : o.1 ≠ -1 := by omega
  have hE := engine_sys_dup_fail o.2 nofile stream hfail
  obtain ⟨hd1, hd2⟩ := sys_dup2_lim_spec nofile o.2.fds o.1 stream f hfile hs0 hs
  have hlt : ¬ stream < 0 := by omega
  have hback : ∀ e : Engine, e.sys_dup2_lim nofile (-1) stream = (-1, e) := by
    intro e
    unfold Engine.sys_dup2_lim
    rw [sys_dup2_lim_closed nofile e.fds (-1) stream (lookup_neg_one _)]
  refine ⟨(o.2.sys_dup2_lim nofile o.1 stream).2, fun s2 =>
    .returned (((s2.emit (Event.perror "error")).sys_close o.1).2), ?_, ?_, ?_⟩
  · intro run_child
    unfold redirect_tail
    simp only [hne, if_false, hE, sys_dup2_lim_fst, hd1, hlt, hback]
    rfl
  · intro b
    simp only [sys_dup2_lim_fds]
    rw [hd2]
  · intro s2
    refine ⟨_, rfl, fun b => ?_⟩
    simp only [sys_close_fds, emit_fds]
    rw [sys_close_spec]

/-- The bracket of the default case whenever `file` is open and `stream` is a
descriptor below the limit: the child starts in a state where `stream` refers
to the new file and every other slot that was open is as it was. -/
theorem redirect_tail_mid (nofile : Nat) (o : Int × Engine) (stream : Int) (f : File)
    (hfile : o.2.fds.lookup o.1 = some f) (hs0 : 0 ≤ stream) (hs : stream < (nofile : Int)) :
    ∃ (mid : Engine) (k : Engine → Outcome),
      (∀ run_child, redirect_tail nofile o stream run_child = (run_child mid).andThen k) ∧
      mid.fds.lookup stream = some f ∧
      ∀ b, b ≠ stream → o.2.fds.lookup b ≠ none → mid.fds.lookup b = o.2.fds.lookup b := by
  have unsaved : (o.2.fds.lookup stream = none ∨ ¬ o.2.fds.lowest_free < nofile) →
      ∃ (mid : Engine) (k : Engine → Outcome),
        (∀ run_child, redirect_tail nofile o stream run_child = (run_child mid).andThen k) ∧
        mid.fds.lookup stream = some f ∧
        ∀ b, b ≠ stream → o.2.fds.lookup b ≠ none → mid.fds.lookup b = o.2.fds.lookup b := by
    intro hfail
    obtain ⟨mid, k, hrun, hmid, -⟩ := redirect_tail_unsaved nofile o stream f hfile hs0 hs hfail
    exact ⟨mid, k, hrun, by rw [hmid]; simp, fun b hb _ => by rw [hmid]; simp [hb]⟩
  cases hstream : o.2.fds.lookup stream with
  | none => exact unsaved (Or.inl hstream)
  | some orig =>
    by_cases hroom : o.2.fds.lowest_free < nofile
    · obtain ⟨sv, mid, k, hsv, -, hmid, hrun, -⟩ :=
        redirect_tail_ok nofile o stream f orig hfile hstream hroom hs
      refine ⟨mid, k, hrun, ?_, ?_⟩
      · rw [hmid]; simp
      · intro b hb hopen
        rw [hmid]
        have : b ≠ sv := by
          intro h; rw [h] at hopen; exact hopen hsv
        simp [hb, this]
    · exact unsaved (Or.inr hroom)

theorem exec_redirect_combined (os : OS) (r : Redirect) (run_child : Engine → Outcome)
    (s : Engine) (h : r.fd = -1) :
    exec_redirect os r run_child s =
      (run_child (combined_mid os r s)).andThen (combined_rest os r s) := by
  unfold exec_redirect combined_mid combined_rest
  simp only [h, if_true]

/-- The bracket of the combined case on the success path, where three slots
beyond the table are below the limit. -/
theorem redirect_combined_ok (os : OS) (r : Redirect) (s : Engine) (f o1 o2 : File)
    (h : r.fd = -1) (hopen : os.open_file r.target OpenFlags.O_CREAT_WRONLY_TRUNC = some f)
    (h1 : s.fds.lookup STDOUT = some o1) (h2 : s.fds.lookup STDERR = some o2)
    (hroom : s.fds.length + 3 ≤ os.nofile) :
    ∃ (file sv1 sv2 : Int) (mid : Engine) (k : Engine → Outcome),
      s.fds.lookup file = none ∧ s.fds.lookup sv1 = none ∧ s.fds.lookup sv2 = none ∧
      file ≠ sv1 ∧ file ≠ sv2 ∧ sv1 ≠ sv2 ∧ mid.no_fds = s.no_fds ∧
      (∀ b, mid.fds.lookup b =
        if b = STDERR then some f else if b = STDOUT then some f
        else if b = sv2 then some o2 else if b = sv1 then some o1
        else if b = file then some f else s.fds.lookup b) ∧
      (∀ run_child, exec_redirect os r run_child s = (run_child mid).andThen k) ∧
      (∀ s2, s2.fds.lookup sv1 = some o1 → s2.fds.lookup sv2 = some o2 →
        ∃ s3, k s2 = .returned s3 ∧
        ∀ b, s3.fds.lookup b =
          if b = file then none else if b = STDOUT then some o1
          else if b = STDERR then some o2 else s2.fds.lookup b) := by
  have r0 : s.fds.lowest_free < os.nofile := by
    have := Table.lowest_free_le_length s.fds
    omega
  have l1 := sys_open_lim_length os.nofile s.fds (some f)
  have r1 : (Shell.sys_open_lim os.nofile s.fds (some f)).2.lowest_free < os.nofile := by
    have := Table.lowest_free_le_length (Shell.sys_open_lim os.nofile s.fds (some f)).2
    omega
  have l2 := sys_dup_length os.nofile (Shell.sys_open_lim os.nofile s.fds (some f)).2 STDOUT
  have r2 : (Shell.sys_dup os.nofile (Shell.sys_open_lim os.nofile s.fds (some f)).2
      STDOUT).2.lowest_free < os.nofile := by
    have := Table.lowest_free_le_length
      (Shell.sys_dup os.nofile (Shell.sys_open_lim os.nofile s.fds (some f)).2 STDOUT).2
    omega
  have hout : STDOUT < (os.nofile : Int) := by
    show (1 : Int) < _
    omega
  have herr : STDERR < (os.nofile : Int) := by
    show (2 : Int) < _
    omega
  obtain ⟨file, hf0, hffree, hf1, hf2⟩ := sys_open_lim_spec os.nofile s.fds f r0
  have e1 : STDOUT ≠ file := by
    intro e; rw [← e] at hffree; rw [hffree] at h1; cases h1
  have e2 : STDERR ≠ file := by
    intro e; rw [← e] at hffree; rw [hffree] at h2; cases h2
  have h1a : (Shell.sys_open_lim os.nofile s.fds (some f)).2.lookup STDOUT = some o1 := by
    rw [hf2]; simp [e1, h1]
  obtain ⟨sv1, ha0, hafree, ha1, ha2⟩ := sys_dup_spec os.nofile _ STDOUT o1 h1a r1
  have e3 : STDERR ≠ sv1 := by
    intro e; rw [← e, hf2] at hafree; simp [e2, h2] at hafree
  have e4 : file ≠ sv1 := by
    intro e; rw [← e, hf2] at hafree; simp at hafree
  have hsv1free : s.fds.lookup sv1 = none := by
    rw [hf2] at hafree; simpa [Ne.symm e4] using hafree
  have h2a : (Shell.sys_dup os.nofile (Shell.sys_open_lim os.nofile s.fds (some f)).2
      STDOUT).2.lookup STDERR = some o2 := by
    rw [ha2, hf2]; simp [e3, e2, h2]
  obtain ⟨sv2, hb0, hbfree, hb1, hb2⟩ := sys_dup_spec os.nofile _ STDERR o2 h2a r2
  have e5 : sv1 ≠ sv2 := by
    intro e; rw [← e, ha2] at hbfree; simp at hbfree
  have e6 : file ≠ sv2 := by
    intro e; rw [← e, ha2, hf2] at hbfree; simp [e4] at hbfree
  have hsv2free : s.fds.lookup sv2 = none := by
    rw [ha2, hf2] at hbfree; simpa [Ne.symm e5, Ne.symm e6] using hbfree
  have hfile3 : (Shell.sys_dup os.nofile (Shell.sys_dup os.nofile
      (Shell.sys_open_lim os.nofile s.fds (some f)).2 STDOUT).2
      STDERR).2.lookup file = some f := by
    rw [hb2, ha2, hf2]; simp [e6, e4]
  obtain ⟨hc1, hc2⟩ := sys_dup2_lim_spec os.nofile _ file STDOUT f hfile3 (by decide) hout
  have hout4 : (Shell.sys_dup2_lim os.nofile (Shell.sys_dup os.nofile (Shell.sys_dup os.nofile
      (Shell.sys_open_lim os.nofile s.fds (some f)).2 STDOUT).2 STDERR).2
      file STDOUT).2.lookup STDOUT = some f := by
    rw [hc2]; simp
  obtain ⟨hd1, hd2⟩ := sys_dup2_lim_spec os.nofile _ STDOUT STDERR f hout4 (by decide) herr
  refine ⟨file, sv1, sv2, combined_mid os r s, combined_rest os r s, hffree, hsv1free,
    hsv2free, e4, e6, e5, ?_, ?_, fun run_child => exec_redirect_combined os r run_child s h, ?_⟩
  · unfold combined_mid
    rw [dup2_or_perror_no_fds, dup2_or_perror_no_fds]
    · rfl
    · simp only [hopen, sys_open_lim_fst, sys_open_lim_fds, sys_dup_fds, hf1, hc1]
      decide
    · simp only [dup2_or_perror_fds, hopen, sys_open_lim_fst, sys_open_lim_fds, sys_dup_fds,
        hf1, hd1]
      decide
  · intro b
    simp only [combined_mid, dup2_or_perror_fds, hopen, sys_open_lim_fst, sys_open_lim_fds,
      sys_dup_fds, hf1]
    rw [hd2, hc2, hb2, ha2, hf2]
  · intro s2 hs1 hs2
    refine ⟨_, rfl, ?_⟩
    intro b
    simp only [sys_close_fds, dup2_or_perror_fds, hopen, sys_open_lim_fst, sys_open_lim_fds,
      sys_dup_fds, sys_dup_fst, hf1, ha1, hb1]
    obtain ⟨-, hx2⟩ := sys_dup2_lim_spec os.nofile s2.fds sv2 STDERR o2 hs2 (by decide) herr
    have hs1x : (Shell.sys_dup2_lim os.nofile s2.fds sv2 STDERR).2.lookup sv1 = some o1 := by
      rw [hx2]; simp [hs1]
      intro e; exact absurd e.symm e3
    obtain ⟨-, hy2⟩ := sys_dup2_lim_spec os.nofile _ sv1 STDOUT o1 hs1x (by decide) hout
    rw [sys_close_spec, hy2, hx2]

theorem run_command_redirect (os : OS) (r : Redirect) (child : Node) (s : Engine) :
    run_command os (.redirect r child) s =
      exec_redirect os r (fun s1 => run_command os child s1) s := by
  rw [run_command]

/-- What the default case of `exec_redirect` starts from: `file` is open on the
replacement and the slots that were open are as they were. -/
theorem redirect_default_entry (os : OS) (r : Redirect) (s : Engine) (f : File)
    (h : r.fd ≠ -1) (hopen : replacement os r s.fds = some f) :
    ∃ (o : Int × Engine) (stream : Int),
      overwritten r = [stream] ∧
      (∀ run_child, exec_redirect os r run_child s =
        redirect_tail os.nofile o stream run_child) ∧
      o.2.no_fds = s.no_fds ∧ o.2.fds.length ≤ s.fds.length + 1 ∧
      o.2.fds.lookup o.1 = some f ∧ s.fds.lookup o.1 = none ∧
      ∀ b, b ≠ o.1 → o.2.fds.lookup b = s.fds.lookup b := by
  unfold replacement at hopen
  have r0 : s.fds.lowest_free < os.nofile := by
    by_contra hc
    simp [hc] at hopen
  simp only [r0, if_true, h, if_false] at hopen
  have key : ∀ (g : Option File), g = some f →
      (s.sys_open_lim os.nofile g).2.fds.length ≤ s.fds.length + 1 ∧
      (s.sys_open_lim os.nofile g).2.fds.lookup (s.sys_open_lim os.nofile g).1 = some f ∧
      s.fds.lookup (s.sys_open_lim os.nofile g).1 = none ∧
      ∀ b, b ≠ (s.sys_open_lim os.nofile g).1 →
        (s.sys_open_lim os.nofile g).2.fds.lookup b = s.fds.lookup b := by
    intro g hg
    subst hg
    obtain ⟨n, -, hfree, h1, h2⟩ := sys_open_lim_spec os.nofile s.fds f r0
    have hl := sys_open_lim_length os.nofile s.fds (some f)
    simp only [sys_open_lim_fst, sys_open_lim_fds, h1]
    refine ⟨hl, by rw [h2]; simp, hfree, fun b hb => by rw [h2]; simp [hb]⟩
  cases hm : r.mode <;> rw [hm] at hopen <;> simp only at hopen
  · obtain ⟨n, -, hfree, h1, h2⟩ := sys_dup_spec os.nofile s.fds r.fd2 f hopen r0
    refine ⟨s.sys_dup os.nofile r.fd2, r.fd, by simp [overwritten, h, hm], ?_, rfl,
      sys_dup_length os.nofile s.fds r.fd2, ?_, ?_, ?_⟩
    · intro run_child; rw [exec_redirect_default os r run_child s h, hm]
    · simp only [sys_dup_fst, sys_dup_fds, h1]; rw [h2]; simp
    · simpa only [sys_dup_fst, h1] using hfree
    · intro b hb
      simp only [sys_dup_fst, sys_dup_fds, h1] at hb ⊢
      rw [h2]; simp [hb]
  · refine ⟨_, STDIN, by simp [overwritten, h, hm], ?_, rfl, key _ hopen⟩
    intro run_child; rw [exec_redirect_default os r run_child s h, hm]
  · refine ⟨_, STDOUT, by simp [overwritten, h, hm], ?_, rfl, key _ hopen⟩
    intro run_child; rw [exec_redirect_default os r run_child s h, hm]
  · refine ⟨_, STDOUT, by simp [overwritten, h, hm], ?_, rfl, key _ hopen⟩
    intro run_child; rw [exec_redirect_default os r run_child s h, hm]

/-- With room below the limit for the descriptors it opens, redirection does
restore the prior descriptor state.  For a redirect node of any mode (and the
combined form `fd == -1`) whose replacement descriptor opens, run from a table
in which the slot(s) it overwrites are open and three slots beyond which are
below the limit, and whose child, started from the entry state with whatever
descriptor table, returns with every descriptor referring to what it referred
to: `run_command` returns, and each overwritten slot refers to the open file it
referred to on entry. -/
theorem redirect_restores_slots_with_room (os : OS) (r : Redirect) (child : Node) (s : Engine)
    (f : File) (hopen : replacement os r s.fds = some f)
    (hslots : ∀ k ∈ overwritten r, s.fds.lookup k ≠ none)
    (hroom : s.fds.length + 3 ≤ os.nofile)
    (hchild : ∀ s1 : Engine, s1.no_fds = s.no_fds →
      ∃ s2, run_command os child s1 = .returned s2 ∧ ∀ b, s2.fds.lookup b = s1.fds.lookup b) :
    ∃ s3, run_command os (.redirect r child) s = .returned s3 ∧
      ∀ k ∈ overwritten r, s3.fds.lookup k = s.fds.lookup k := by
  rw [run_command_redirect]
  by_cases h : r.fd = -1
  · have hov : overwritten r = [STDOUT, STDERR] := by simp [overwritten, h]
    rw [hov] at hslots ⊢
    have r0 : s.fds.lowest_free < os.nofile := by
      have := Table.lowest_free_le_length s.fds
      omega
    have hopen2 : os.open_file r.target OpenFlags.O_CREAT_WRONLY_TRUNC = some f := by
      simpa [replacement, h, r0] using hopen
    obtain ⟨o1, h1⟩ := Option.ne_none_iff_exists'.mp (hslots STDOUT (by simp))
    obtain ⟨o2, h2⟩ := Option.ne_none_iff_exists'.mp (hslots STDERR (by simp))
    obtain ⟨file, sv1, sv2, mid, k, hfile, hsv1, hsv2, e1, e2, e3, hmf, hmid, hrun, hk⟩ :=
      redirect_combined_ok os r s f o1 o2 h hopen2 h1 h2 hroom
    obtain ⟨s2, hrc, hfds⟩ := hchild mid hmf
    have n1 : sv1 ≠ STDOUT := by intro e; rw [e, h1] at hsv1; cases hsv1
    have n2 : sv1 ≠ STDERR := by intro e; rw [e, h2] at hsv1; cases hsv1
    have n3 : sv2 ≠ STDOUT := by intro e; rw [e, h1] at hsv2; cases hsv2
    have n4 : sv2 ≠ STDERR := by intro e; rw [e, h2] at hsv2; cases hsv2
    have n5 : STDOUT ≠ file := by intro e; rw [← e, h1] at hfile; cases hfile
    have n6 : STDERR ≠ file := by intro e; rw [← e, h2] at hfile; cases hfile
    obtain ⟨s3, hs3, hl3⟩ := hk s2
      (by rw [hfds, hmid]; simp [n1, n2, e3])
      (by rw [hfds, hmid]; simp [n3, n4])
    refine ⟨s3, by rw [hrun, hrc]; exact hs3, ?_⟩
    intro b hb
    simp only [List.mem_cons, List.mem_singleton, List.not_mem_nil, or_false] at hb
    rcases hb with rfl | rfl
    · rw [hl3, h1]; simp [n5]
    · have n7 : STDERR ≠ STDOUT := by decide
      rw [hl3, h2]; simp [n6, n7]
  · obtain ⟨o, stream, hov, hrun, hof, hlen, hfile, hfree, hframe⟩ :=
      redirect_default_entry os r s f h hopen
    rw [hov] at hslots ⊢
    obtain ⟨orig, horig⟩ := Option.ne_none_iff_exists'.mp (hslots stream (by simp))
    have n1 : stream ≠ o.1 := by intro e; rw [← e, horig] at hfree; cases hfree
    have hstream : o.2.fds.lookup stream = some orig := by rw [hframe stream n1, horig]
    have hr1 : o.2.fds.lowest_free < os.nofile := by
      have := Table.lowest_free_le_length o.2.fds
      omega
    have hs : stream < (os.nofile : Int) := by
      obtain ⟨g0, g1⟩ := Table.lookup_some_lt_length s.fds stream orig horig
      omega
    obtain ⟨sv, mid, k, hsv, hmf, hmid, hrun2, hk⟩ :=
      redirect_tail_ok os.nofile o stream f orig hfile hstream hr1 hs
    obtain ⟨s2, hrc, hfds⟩ := hchild mid (hmf.trans hof)
    have n2 : sv ≠ stream := by intro e; rw [e, hstream] at hsv; cases hsv
    obtain ⟨s3, hs3, hl3⟩ := hk s2 (by rw [hfds, hmid]; simp [n2])
    refine ⟨s3, by rw [hrun, hrun2, hrc]; exact hs3, ?_⟩
    intro b hb
    simp only [List.mem_singleton] at hb
    subst hb
    rw [hl3, horig]; simp [n1]

/-- C2 at `ls > out.txt` on a terminal under `ulimit -n 4`.  The target opens
(descriptor 3) and descriptor 1 is open on entry, on the terminal.  The table
is then full, `dup(STDOUT)` fails, and `exec_redirect` uses its result
untested: `dup2(-1, STDOUT)` after the child restores nothing, and when
`run_command` returns descriptor 1 refers to `out.txt`. -/
theorem redirect_stuck_when_dup_fails :
    replacement demo_os_four demo_output demo_engine.fds = some (File.inode 7) ∧
    (∀ k ∈ overwritten demo_output, demo_engine.fds.lookup k = some (File.inode 1)) ∧
    ∃ s3, run_command demo_os_four (.redirect demo_output demo_ls) demo_engine
        = .returned s3 ∧
      s3.fds.lookup 1 = some (File.inode 7) ∧
      s3.log = [Event.waitpid 100 WaitOption.WUNTRACED, Event.perror "error"] := by
  refine ⟨by decide, by decide, _, rfl, by decide, by decide⟩

/-- The same failure reached through the leak of C6 alone, under `ulimit -n 6`:
each of the first two `ls > out.txt` leaves its saved duplicate open
(descriptors 4 and 5), the third finds no slot for its own, and from then on
descriptor 1 refers to `out.txt`. -/
theorem redirect_stuck_after_leaks :
    ∃ s3, run_command demo_os_six demo_three_redirects demo_engine = .returned s3 ∧
      demo_engine.fds.lookup 1 = some (File.inode 1) ∧
      s3.fds.lookup 1 = some (File.inode 7) ∧
      s3.fds.lookup 4 = some (File.inode 1) ∧ s3.fds.lookup 5 = some (File.inode 1) := by
  refine ⟨_, rfl, by decide, by decide, by decide, by decide⟩

/-- C6 at `ls > out.txt` on a terminal: descriptor 4, closed on entry, is open
when `run_command` returns; it is the duplicate of the old standard output
(`saved_stdin` in the code), which `exec_redirect` never closes. -/
theorem redirect_leaks_saved_duplicate :
    ∃ s3, run_command demo_os (.redirect demo_output demo_ls) demo_engine = .returned s3 ∧
      demo_engine.fds.lookup 4 = none ∧ s3.fds.lookup 4 = some (File.inode 1) := by
  refine ⟨_, rfl, by decide, by decide⟩

theorem redirect_tail_fail (nofile : Nat) (o : Int × Engine) (stream : Int) (h : o.1 = -1) :
    ∃ s3, ∀ run_child, redirect_tail nofile o stream run_child = .returned s3 := by
  refine ⟨((((o.2.emit (Event.perror "error")).sys_dup nofile stream).2.emit
    (Event.perror "error")).sys_close (-1)).2, fun run_child => ?_⟩
  have he : ∀ e : Engine, e.sys_dup2_lim nofile (-1) stream = (-1, e) := by
    intro e
    unfold Engine.sys_dup2_lim
    rw [sys_dup2_lim_closed nofile e.fds (-1) stream (lookup_neg_one _)]
  unfold redirect_tail
  simp only [h, if_true, he]
  rfl

/-- The default case of `exec_redirect` does skip the child when its `open` or
`dup` fails: for `fd != -1` and every mode, the call returns in a state that
does not depend on the child at all. -/
theorem redirect_default_skips_child (os : OS) (r : Redirect) (s : Engine) (h : r.fd ≠ -1)
    (hfail : replacement os r s.fds = none) :
    ∃ s3, ∀ run_child, exec_redirect os r run_child s = .returned s3 := by
  have key : ∀ o : Int × Engine, o.1 = -1 → ∀ stream,
      ∃ s3, ∀ run_child, redirect_tail os.nofile o stream run_child = .returned s3 :=
    fun o ho stream => redirect_tail_fail os.nofile o stream ho
  have hopen : ∀ g : Option File, (¬ s.fds.lowest_free < os.nofile ∨ g = none) →
      (s.sys_open_lim os.nofile g).1 = -1 := by
    intro g hg
    rw [sys_open_lim_fst]
    rcases hg with hg | hg
    · rw [sys_open_lim_full os.nofile s.fds g hg]
    · rw [hg, sys_open_lim_none]
  unfold replacement at hfail
  have hcase : ¬ s.fds.lowest_free < os.nofile ∨
      (match r.mode with
        | .REDIRECT_OUTPUT => os.open_file r.target OpenFlags.O_CREAT_WRONLY_TRUNC
        | .REDIRECT_APPEND => os.open_file r.target OpenFlags.O_CREAT_APPEND_WRONLY
        | .REDIRECT_INPUT => os.open_file r.target OpenFlags.O_RDONLY
        | .REDIRECT_DUP => s.fds.lookup r.fd2) = none := by
    by_cases hr : s.fds.lowest_free < os.nofile
    · right; simpa [hr, h] using hfail
    · left; exact hr
  cases hm : r.mode <;> rw [hm] at hcase <;> simp only at hcase
  · obtain ⟨s3, h3⟩ := key (s.sys_dup os.nofile r.fd2)
      (by rw [sys_dup_fst, sys_dup_fail os.nofile s.fds r.fd2 (Or.symm hcase)]) r.fd
    exact ⟨s3, fun run_child => by rw [exec_redirect_default os r run_child s h, hm]; exact h3 _⟩
  · obtain ⟨s3, h3⟩ := key _ (hopen _ hcase) STDIN
    exact ⟨s3, fun run_child => by rw [exec_redirect_default os r run_child s h, hm]; exact h3 _⟩
  · obtain ⟨s3, h3⟩ := key _ (hopen _ hcase) STDOUT
    exact ⟨s3, fun run_child => by rw [exec_redirect_default os r run_child s h, hm]; exact h3 _⟩
  · obtain ⟨s3, h3⟩ := key _ (hopen _ hcase) STDOUT
    exact ⟨s3, fun run_child => by rw [exec_redirect_default os r run_child s h, hm]; exact h3 _⟩

/-- C7 at `ls &> /missing/out.txt`: the `open` of the target fails, and the
child is run all the same: `ls` is forked and waited for (pid 100). -/
theorem combined_runs_child_after_failed_open :
    replacement demo_os demo_combined_missing demo_engine.fds = none ∧
    ∃ s3, run_command demo_os (.redirect demo_combined_missing demo_ls) demo_engine
        = .returned s3 ∧
      Event.waitpid 100 WaitOption.WUNTRACED ∈ s3.log := by
  refine ⟨by decide, _, rfl, by decide⟩

/-- C5 at `exit 0 2> out.txt` on a terminal (the builtin `exit` ends the run
inside the redirection, in the state in which the child executes): descriptor
2 still refers to the terminal's standard error, and it is descriptor 1 that
refers to the opened target. -/
theorem redirect_fd2_hits_stdout :
    ∃ mid, run_command demo_os (.redirect demo_stderr demo_exit) demo_engine = .exited 0 mid ∧
      replacement demo_os demo_stderr demo_engine.fds = some (File.inode 7) ∧
      demo_engine.fds.lookup 2 = some (File.inode 2) ∧
      mid.fds.lookup 2 = some (File.inode 2) ∧
      demo_engine.fds.lookup 1 = some (File.inode 1) ∧
      mid.fds.lookup 1 = some (File.inode 7) := by
  refine ⟨_, rfl, by decide, by decide, by decide, by decide, by decide⟩

/-- What the default case does for `fd == 1`, under a descriptor limit of at
least 2: for mode Output or Append with a target that opens, the child starts
in a state where descriptor 1 refers to the opened target and every other
descriptor that was open on entry refers to what it did. -/
theorem redirect_stdout_during_child (os : OS) (r : Redirect) (s : Engine) (f : File)
    (hfd : r.fd = 1)
    (hmode : r.mode = RedirectMode.REDIRECT_OUTPUT ∨ r.mode = RedirectMode.REDIRECT_APPEND)
    (hopen : replacement os r s.fds = some f) (hlim : 2 ≤ os.nofile) :
    ∃ (mid : Engine) (k : Engine → Outcome),
      (∀ child, run_command os (.redirect r child) s = (run_command os child mid).andThen k) ∧
      mid.fds.lookup 1 = some f ∧
      ∀ b, b ≠ 1 → s.fds.lookup b ≠ none → mid.fds.lookup b = s.fds.lookup b := by
  have h : r.fd ≠ -1 := by rw [hfd]; decide
  obtain ⟨o, stream, hov, hrun, -, -, hfile, hfree, hframe⟩ :=
    redirect_default_entry os r s f h hopen
  have hs : stream = 1 := by
    rcases hmode with hm | hm <;> simp [overwritten, hm, h, STDOUT] at hov <;> exact hov.symm
  subst hs
  obtain ⟨mid, k, hrun2, hmid1, hmid2⟩ :=
    redirect_tail_mid os.nofile o 1 f hfile (by decide) (by omega)
  refine ⟨mid, k, fun child => ?_, hmid1, fun b hb hopenb => ?_⟩
  · rw [run_command_redirect, hrun, hrun2]
  · have hbo : b ≠ o.1 := by
      intro e; rw [e] at hopenb; exact hopenb hfree
    rw [hmid2 b hb (by rw [hframe b hbo]; exact hopenb), hframe b hbo]

theorem run_command_ls_fds (s1 : Engine) (h : s1.no_fds = demo_engine.no_fds) :
    ∃ s2, run_command demo_os demo_ls s1 = .returned s2 ∧
      ∀ b, s2.fds.lookup b = s1.fds.lookup b := by
  have hforks : s1.forks = [100, 101, 102] := congrArg Engine.forks h
  refine ⟨({ s1 with forks := [101, 102], child := 100 } : Engine).emit
    (Event.waitpid 100 WaitOption.WUNTRACED), ?_, fun _ => rfl⟩
  rw [demo_ls, run_command]
  unfold exec_command
  rw [fork_cons s1 100 [101, 102] hforks]
  rfl

/-- The restoration at `ls > out.txt` on a terminal under the usual limit:
after the command, descriptor 1 refers to the terminal again. -/
theorem redirect_restores_slots_at_ls :
    ∃ s3, run_command demo_os (.redirect demo_output demo_ls) demo_engine = .returned s3 ∧
      ∀ k ∈ overwritten demo_output, s3.fds.lookup k = demo_engine.fds.lookup k :=
  redirect_restores_slots_with_room demo_os demo_output demo_ls demo_engine (File.inode 7)
    (by decide) (by decide) (by decide) run_command_ls_fds

/-! ## The job stack: claim C1 -/

theorem take_succ_set (l : List Int) (k : Nat) (p : Int) (h : k < l.length) :
    (l.set k p).take (k + 1) = l.take k ++ [p] := by
  induction l generalizing k with
  | nil => simp at h
  | cons x l ih =>
    cases k with
    | zero => simp
    | succ k =>
      simp only [List.length_cons, Nat.add_lt_add_iff_right] at h
      simp [ih k h]

theorem getD_of_take_concat (l xs : List Int) (x : Int) (h : l.take (xs.length + 1) = xs ++ [x]) :
    l.getD xs.length 0 = x ∧ l.take xs.length = xs ∧ xs.length < l.length := by
  have hlen : xs.length < l.length := by
    by_contra hc
    have h1 := congrArg List.length h
    simp [List.length_take] at h1
    omega
  have h2 : l.take xs.length = xs := by
    have := congrArg (List.take xs.length) h
    simpa [List.take_take] using this
  refine ⟨?_, h2, hlen⟩
  have h3 := congrArg (fun m => m[xs.length]?) h
  simp only [List.getElem?_take_of_succ] at h3
  simp [h3]

theorem continued_append (a b : List Event) : continued (a ++ b) = continued a ++ continued b := by
  simp [continued]

theorem stop_jobs_spec (ps : List Int) : ∀ (s : Engine) (k : Nat),
    s.sus_child_size = (k : Int) - 1 → k + ps.length ≤ s.sus_children.length →
    (∀ p ∈ ps, p ≠ -1) →
    ∃ s1, stop_jobs ps s = some s1 ∧ s1.sus_child_size = ((k + ps.length : Nat) : Int) - 1 ∧
      s1.sus_children.length = s.sus_children.length ∧
      s1.sus_children.take (k + ps.length) = s.sus_children.take k ++ ps ∧
      continued s1.log = continued s.log := by
  induction ps with
  | nil => intro s k hk _ _; exact ⟨s, rfl, by simpa using hk, rfl, by simp, rfl⟩
  | cons p ps ih =>
    intro s k hk hcap hp
    have hp1 : p ≠ -1 := hp p (by simp)
    simp only [List.length_cons] at hcap
    have hi : 0 ≤ s.sus_child_size + 1 ∧ (s.sus_child_size + 1).toNat < s.sus_children.length := by
      rw [hk]; constructor <;> omega
    have hstop : stop_job p s = some { s with
        sus_child_size := s.sus_child_size + 1
        sus_children := s.sus_children.set (s.sus_child_size + 1).toNat p
        log := s.log ++ [Event.killpg p Signal.SIGTSTP]
        child := -1 } := by
      simp only [stop_job, stop_child, hp1, if_false]
      rw [if_pos hi]
    have hidx : (s.sus_child_size + 1).toNat = k := by rw [hk]; omega
    obtain ⟨s1, h1, h2, h3, h4, h5⟩ := ih { s with
        sus_child_size := s.sus_child_size + 1
        sus_children := s.sus_children.set (s.sus_child_size + 1).toNat p
        log := s.log ++ [Event.killpg p Signal.SIGTSTP]
        child := -1 } (k + 1) (by simp only [hk]; omega) (by simp; omega)
        (fun q hq => hp q (by simp [hq]))
    refine ⟨s1, by simp only [stop_jobs, hstop, Option.some_bind]; exact h1,
      ?_, ?_, ?_, ?_⟩
    · rw [h2]; simp only [List.length_cons]; congr 2; omega
    · rw [h3]; simp
    · have e : k + (ps.length + 1) = k + 1 + ps.length := by omega
      simp only [List.length_cons]
      rw [e, h4]
      simp only [hidx]
      rw [take_succ_set _ _ _ (by omega)]
      simp
    · rw [h5, continued_append]
      simp [continued, continued_group]

theorem resume_jobs_spec (os : OS) (how : List Bool) : ∀ (s : Engine) (stack : List Int),
    s.sus_child_size = (stack.length : Int) - 1 →
    s.sus_children.take stack.length = stack → how.length ≤ stack.length →
    ∃ s2, resume_jobs os how s = .returned s2 ∧
      continued s2.log = continued s.log ++ stack.reverse.take how.length ∧
      s2.sus_child_size = ((stack.length - how.length : Nat) : Int) - 1 := by
  induction how with
  | nil => intro s stack hk _ _; exact ⟨s, rfl, by simp, by simpa using hk⟩
  | cons fg rest ih =>
    intro s stack hk htake hlen
    rcases List.eq_nil_or_concat stack with rfl | ⟨xs, x, rfl⟩
    · simp at hlen
    simp only [List.concat_eq_append, List.length_append, List.length_singleton,
      List.length_cons, List.length_nil, Nat.zero_add] at hk htake hlen ⊢
    obtain ⟨hget, htake2, hlt⟩ := getD_of_take_concat _ xs x htake
    have hne : s.sus_child_size ≠ -1 := by rw [hk]; omega
    have hi : 0 ≤ s.sus_child_size ∧ s.sus_child_size.toNat < s.sus_children.length := by
      rw [hk]; constructor <;> omega
    have hidx : s.sus_child_size.toNat = xs.length := by rw [hk]; omega
    have hres : resume_if_any s = some { s with
        child := x
        sus_child_size := s.sus_child_size - 1
        log := s.log ++ [Event.killpg x Signal.SIGCONT] } := by
      simp only [resume_if_any, hne, ne_eq, not_false_eq_true, if_true, resume_child]
      rw [if_pos hi]
      simp only [hidx, hget]
    have hrev : (xs ++ [x]).reverse.take (rest.length + 1) = x :: xs.reverse.take rest.length := by
      simp
    cases fg with
    | true =>
      obtain ⟨s2, h1, h2, h3⟩ := ih ({ s with
        child := x
        sus_child_size := s.sus_child_size - 1
        log := s.log ++ [Event.killpg x Signal.SIGCONT] }.emit
          (Event.waitpid (-1) WaitOption.WUNTRACED)) xs
        (by simp only [Engine.emit, hk]; omega) htake2 (by omega)
      refine ⟨s2, ?_, ?_, ?_⟩
      · simp only [resume_jobs, resume_builtin, if_true, exec_command,
          show ¬ ("fg" = "exit") by decide, show ¬ ("fg" = "cd") by decide,
          show ¬ ("fg" = "set") by decide, show ¬ ("fg" = "unset") by decide, if_false, hres,
          Outcome.andThen]
        exact h1
      · rw [h2, hrev]
        simp [Engine.emit, continued, continued_group]
      · rw [h3]; congr 2; omega
    | false =>
      obtain ⟨s2, h1, h2, h3⟩ := ih { s with
        child := x
        sus_child_size := s.sus_child_size - 1
        log := s.log ++ [Event.killpg x Signal.SIGCONT] } xs
        (by simp only [hk]; omega) htake2 (by omega)
      refine ⟨s2, ?_, ?_, ?_⟩
      · simp only [resume_jobs, resume_builtin, Bool.false_eq_true, if_false, exec_command,
          show ¬ ("bg" = "exit") by decide, show ¬ ("bg" = "cd") by decide,
          show ¬ ("bg" = "set") by decide, show ¬ ("bg" = "unset") by decide,
          show ¬ ("bg" = "fg") by decide, if_true, hres, Outcome.andThen]
        exact h1
      · rw [h2, hrev]
        simp [continued, continued_group]
      · rw [h3]; congr 2; omega

theorem start_capacity (fds : Table) (forks : List Int) :
    (Engine.start fds forks).sus_children.length = 256 :=
  List.length_replicate 256 (0 : Int)

/-- C1.  The job stack is LIFO.  From any engine state with an empty job stack
(`sus_child_size == -1`, the array of 256 entries), let `stop_child` run once
for each process group of `ps`, in order, each time while that group is the
foreground job; `ps` is any list of at most 256 pids.  Then as many resumes as
there were stops, each issued by `fg` or by `bg` through `exec_command`, all
return, they send the continue signal to the groups of `ps` in exactly the
reverse order, and they leave the stack empty.  With `ps = [A, B]`: `B` is
continued first, then `A`. -/
theorem job_stack_lifo (os : OS) (s : Engine) (ps : List Int) (how : List Bool)
    (hempty : s.sus_child_size = -1) (hcap : s.sus_children.length = 256)
    (hlen : ps.length ≤ 256) (hpids : ∀ p ∈ ps, p ≠ -1) (hhow : how.length = ps.length) :
    ∃ s1 s2, stop_jobs ps s = some s1 ∧ resume_jobs os how s1 = .returned s2 ∧
      continued s2.log = continued s.log ++ ps.reverse ∧ s2.sus_child_size = -1 := by
  obtain ⟨s1, h1, h2, h3, h4, h5⟩ := stop_jobs_spec ps s 0 (by simp [hempty])
    (by omega) hpids
  simp only [Nat.zero_add, List.take_zero, List.nil_append] at h2 h4
  obtain ⟨s2, g1, g2, g3⟩ := resume_jobs_spec os how s1 ps h2 h4 (by omega)
  refine ⟨s1, s2, h1, g1, ?_, ?_⟩
  · rw [g2, h5, hhow]
    congr 1
    rw [← List.length_reverse ps, List.take_length]
  · rw [g3, hhow]; simp

/-- C1 at two stops, of the groups 100 and then 101, followed by `fg` and `bg`. -/
theorem job_stack_lifo_witness :
    ∃ s1 s2, stop_jobs [100, 101] demo_engine = some s1 ∧
      resume_jobs demo_os [true, false] s1 = .returned s2 ∧
      continued s2.log = continued demo_engine.log ++ [100, 101].reverse ∧
      s2.sus_child_size = -1 :=
  job_stack_lifo demo_os demo_engine [100, 101] [true, false] (by decide)
    (start_capacity demo_fds _) (by decide) (by decide) (by decide)

/-! ## `atoi` on decimal numerals -/

theorem digitChar_spec (d : Nat) (h : d < 10) :
    (Nat.digitChar d).isDigit = true ∧ (((Nat.digitChar d).toNat - 48 : Nat) : Int) = d := by
  interval_cases d <;> exact ⟨by decide, by decide⟩

theorem atoi_skip_digit (d : Nat) (h : d < 10) (cs : List Char) :
    atoi_skip (Nat.digitChar d :: cs) = atoi_digits 0 (Nat.digitChar d :: cs) := by
  interval_cases d <;> rfl

theorem atoi_digits_cons_digit (acc : Int) (d : Nat) (h : d < 10) (cs : List Char) :
    atoi_digits acc (Nat.digitChar d :: cs) = atoi_digits (acc * 10 + d) cs := by
  obtain ⟨h1, h2⟩ := digitChar_spec d h
  rw [atoi_digits, if_pos h1, h2]

theorem toDigitsCore_spec (fuel : Nat) : ∀ (n : Nat) (ds : List Char), n < fuel →
    (∃ d cs, d < 10 ∧ Nat.toDigitsCore 10 fuel n ds = Nat.digitChar d :: cs) ∧
    ∃ k : Nat, ∀ acc : Int,
      atoi_digits acc (Nat.toDigitsCore 10 fuel n ds) = atoi_digits (acc * 10 ^ k + n) ds := by
  induction fuel with
  | zero => intro n ds h; omega
  | succ fuel ih =>
    intro n ds h
    have hmod : n % 10 < 10 := Nat.mod_lt _ (by decide)
    by_cases h0 : n / 10 = 0
    · have hn : n % 10 = n := by omega
      simp only [Nat.toDigitsCore, h0, if_true]
      refine ⟨⟨n % 10, ds, hmod, rfl⟩, 1, fun acc => ?_⟩
      rw [atoi_digits_cons_digit acc _ hmod, hn]
      simp
    · simp only [Nat.toDigitsCore, h0, if_false]
      obtain ⟨hfirst, k, hk⟩ := ih (n / 10) (Nat.digitChar (n % 10) :: ds) (by omega)
      refine ⟨hfirst, k + 1, fun acc => ?_⟩
      rw [hk, atoi_digits_cons_digit _ _ hmod]
      congr 1
      have : (n : Int) = (n / 10 : Nat) * 10 + (n % 10 : Nat) := by
        have := Nat.div_add_mod n 10
        omega
      rw [this]
      push_cast
      ring

theorem atoi_skip_repr (n : Nat) : atoi_skip (Nat.repr n).data = n := by
  obtain ⟨⟨d, cs, hd, hcs⟩, k, hk⟩ := toDigitsCore_spec (n + 1) n [] (by omega)
  have hdata : (Nat.repr n).data = Nat.toDigitsCore 10 (n + 1) n [] := rfl
  rw [hdata]
  have h1 : atoi_skip (Nat.toDigitsCore 10 (n + 1) n []) =
      atoi_digits 0 (Nat.toDigitsCore 10 (n + 1) n []) := by
    rw [hcs]; exact atoi_skip_digit d hd cs
  rw [h1, hk 0]
  simp [atoi_digits]

theorem atoi_skip_toString (n : Int) : atoi_skip (toString n).data = n := by
  cases n with
  | ofNat m => exact atoi_skip_repr m
  | negSucc m =>
    have hdata : (toString (Int.negSucc m)).data = '-' :: (Nat.repr (m + 1)).data := by
      show ("-" ++ Nat.repr (m + 1)).data = _
      rw [String.data_append]
      rfl
    obtain ⟨⟨d, cs, hd, hcs⟩, k, hk⟩ := toDigitsCore_spec (m + 1 + 1) (m + 1) [] (by omega)
    have hrepr : (Nat.repr (m + 1)).data = Nat.toDigitsCore 10 (m + 1 + 1) (m + 1) [] := rfl
    rw [hdata, hrepr]
    have h1 : atoi_skip ('-' :: Nat.toDigitsCore 10 (m + 1 + 1) (m + 1) []) =
        - atoi_digits 0 (Nat.toDigitsCore 10 (m + 1 + 1) (m + 1) []) := rfl
    rw [h1, hk 0]
    simp only [atoi_digits, zero_mul, zero_add]
    rw [Int.negSucc_eq]
    push_cast
    ring

/-- On the decimal numeral of an `int`, `atoi` yields that `int`. -/
theorem atoi_toString (n : Int) (h1 : -2147483648 ≤ n) (h2 : n ≤ 2147483647) :
    atoi (toString n) = some n := by
  unfold atoi
  simp only [atoi_skip_toString]
  rw [if_pos ⟨h1, h2⟩]

/-! ## Builtins and the interrupt handler: claims C8, C9 and C10 -/

theorem run_command_command (os : OS) (program : String) (argv : List String) (s : Engine) :
    run_command os (.command program argv) s = exec_command os program argv s := by
  rw [run_command]

/-- C8 (counterexample).  On the engine right after start-up, whose job stack is
empty, the builtin `fg` performs a wait: `waitpid(-1, NULL, WUNTRACED)`. -/
theorem fg_empty_stack_waits :
    demo_engine.sus_child_size = -1 ∧
    run_command demo_os (.command "fg" ["fg"]) demo_engine =
      .returned (demo_engine.emit (Event.waitpid (-1) WaitOption.WUNTRACED)) ∧
    Event.waitpid (-1) WaitOption.WUNTRACED ∈
      (demo_engine.emit (Event.waitpid (-1) WaitOption.WUNTRACED)).log := by
  refine ⟨by decide, rfl, by decide⟩

/-- C8 (amended).  With an empty job stack (`sus_child_size == -1`), whatever
the arguments: `bg` through `run_command` returns the engine state unchanged;
`fg` returns it with one more log entry, its call `waitpid(-1, NULL,
WUNTRACED)`.  So both leave the job stack and the foreground reference
unchanged and send no signal, `bg` performs no wait, and `fg` performs that one
wait. -/
theorem fg_bg_empty_stack (os : OS) (fg_argv bg_argv : List String) (s : Engine)
    (hempty : s.sus_child_size = -1) :
    run_command os (.command "fg" fg_argv) s =
      .returned (s.emit (Event.waitpid (-1) WaitOption.WUNTRACED)) ∧
    run_command os (.command "bg" bg_argv) s = .returned s := by
  constructor
  · rw [run_command_command]
    simp only [exec_command, show ¬ ("fg" = "exit") by decide, show ¬ ("fg" = "cd") by decide,
      show ¬ ("fg" = "set") by decide, show ¬ ("fg" = "unset") by decide, if_false, if_true,
      resume_if_any, hempty, ne_eq, not_true_eq_false]
  · rw [run_command_command]
    simp only [exec_command, show ¬ ("bg" = "exit") by decide, show ¬ ("bg" = "cd") by decide,
      show ¬ ("bg" = "set") by decide, show ¬ ("bg" = "unset") by decide,
      show ¬ ("bg" = "fg") by decide, if_false, if_true,
      resume_if_any, hempty, ne_eq, not_true_eq_false]

/-- C8 (amended) on the engine right after start-up. -/
theorem fg_bg_empty_stack_witness :
    run_command demo_os (.command "fg" ["fg"]) demo_engine =
      .returned (demo_engine.emit (Event.waitpid (-1) WaitOption.WUNTRACED)) ∧
    run_command demo_os (.command "bg" ["bg"]) demo_engine = .returned demo_engine :=
  fg_bg_empty_stack demo_os ["fg"] ["bg"] demo_engine (by decide)

/-- C9 (counterexample).  The command `exit` with no argument does not terminate
the engine: it prints the usage line and returns. -/
theorem exit_without_argument_returns :
    run_command demo_os (.command "exit" ["exit"]) demo_engine =
      .returned (demo_engine.emit (Event.printf "usage: exit <exit code>\n")) :=
  rfl

/-- C9 (amended).  For a command node whose program is `exit`: with exactly
one argument, the decimal numeral of an `int` `n`, `run_command` terminates the
engine process by `exit(n)`; with any other number of arguments, none included,
it prints the usage line, returns, and changes nothing else. -/
theorem exit_builtin (os : OS) (arg0 : String) (s : Engine) (n : Int)
    (h1 : -2147483648 ≤ n) (h2 : n ≤ 2147483647) :
    run_command os (.command "exit" [arg0, toString n]) s = .exited n s ∧
    ∀ argv : List String, argv.length ≠ 2 →
      run_command os (.command "exit" argv) s =
        .returned (s.emit (Event.printf "usage: exit <exit code>\n")) := by
  constructor
  · rw [run_command_command]
    simp only [exec_command, if_true, List.length_cons, List.length_nil, List.getD_cons_succ,
      List.getD_cons_zero, atoi_toString n h1 h2]
  · intro argv hargv
    rw [run_command_command]
    simp only [exec_command, if_true, hargv, if_false]

/-- C9 (amended) at `exit 3`. -/
theorem exit_builtin_witness :
    run_command demo_os (.command "exit" ["exit", toString (3 : Int)]) demo_engine
      = .exited 3 demo_engine ∧
    ∀ argv : List String, argv.length ≠ 2 →
      run_command demo_os (.command "exit" argv) demo_engine =
        .returned (demo_engine.emit (Event.printf "usage: exit <exit code>\n")) :=
  exit_builtin demo_os "exit" demo_engine 3 (by decide) (by decide)

/-- C10 at the command `ls`.  Right after start-up the handler `ignore` changes
nothing.  After `ls` was forked (pid 100) and its `waitpid` in `exec_command`
has returned, `child` still holds 100, and the handler sends `SIGKILL` to pid
100. -/
theorem interrupt_after_command_kills_stale_pid :
    ignore demo_engine = demo_engine ∧
    ∃ s1, run_command demo_os (.command "ls" ["ls"]) demo_engine = .returned s1 ∧
      s1.log = [Event.waitpid 100 WaitOption.WUNTRACED] ∧
      s1.child = 100 ∧
      ignore s1 = s1.emit (Event.kill 100 Signal.SIGKILL) := by
  refine ⟨rfl, _, rfl, by decide, by decide, rfl⟩

/-! ## `exec_sequence`: claim C4 -/

theorem andThen_assoc (o : Outcome) (f g : Engine → Outcome) :
    (o.andThen f).andThen g = o.andThen fun s => (f s).andThen g := by
  cases o <;> rfl

theorem andThen_returned (o : Outcome) : o.andThen Outcome.returned = o := by
  cases o <;> rfl

theorem run_all_append (os : OS) (l1 l2 : List Node) (s : Engine) :
    run_all os (l1 ++ l2) s = (run_all os l1 s).andThen (run_all os l2) := by
  induction l1 generalizing s with
  | nil => rfl
  | cons n l1 ih =>
    simp only [List.cons_append, run_all, andThen_assoc]
    congr 1
    funext s1
    exact ih s1

theorem run_all_singleton (os : OS) (n : Node) (s : Engine) :
    run_all os [n] s = run_command os n s := by
  simp only [run_all]
  exact andThen_returned _

/-- The loop of `exec_sequence` followed by the last call does on `second` what
`run_command` does on it. -/
theorem exec_sequence_loop_eq (os : OS) (n : Node) (s : Engine) :
    exec_sequence_loop os n s = run_command os n s := by
  cases n <;> rw [exec_sequence_loop, run_command]

theorem run_command_sequence (os : OS) (first second : Node) (s : Engine) :
    run_command os (.sequence first second) s =
      (run_command os first s).andThen (run_command os second) := by
  rw [run_command]
  congr 1
  funext s1
  exact exec_sequence_loop_eq os second s1

theorem run_command_eq_run_all (os : OS) : ∀ (t : Node) (s : Engine),
    run_command os t s = run_all os (leaves t) s
  | .sequence first second, s => by
    rw [run_command_sequence, leaves, run_all_append, run_command_eq_run_all os first s]
    congr 1
    funext s1
    exact run_command_eq_run_all os second s1
  | .command program argv, s => by rw [leaves, run_all_singleton]
  | .pipe parts, s => by rw [leaves, run_all_singleton]
  | .redirect r child, s => by rw [leaves, run_all_singleton]
  | .subshell child, s => by rw [leaves, run_all_singleton]
  | .detach child, s => by rw [leaves, run_all_singleton]

theorem sequence_spec_eq_run_all (os : OS) : ∀ (t : Node) (s : Engine),
    sequence_spec os t s = run_all os (leaves t) s
  | .sequence first second, s => by
    rw [sequence_spec, leaves, run_all_append, sequence_spec_eq_run_all os first s]
    congr 1
    funext s1
    exact sequence_spec_eq_run_all os second s1
  | .command program argv, s => by rw [leaves, run_all_singleton, sequence_spec]
  | .pipe parts, s => by rw [leaves, run_all_singleton, sequence_spec]
  | .redirect r child, s => by rw [leaves, run_all_singleton, sequence_spec]
  | .subshell child, s => by rw [leaves, run_all_singleton, sequence_spec]
  | .detach child, s => by rw [leaves, run_all_singleton, sequence_spec]

/-- C4.  For every tree `t` and every engine state, `run_command` on `t` (for a
sequence node: `exec_sequence`, with its loop flattening the right spine) runs
the leaves of `t`, its nodes that are not sequence nodes, each exactly once
and from left to right, each leaf starting in the state the one before
returned in; and this is what the recursive reading "run first, then second"
does.  No exit status is consulted; only a leaf that does not return (the
builtin `exit`, the child side of a `fork`) ends the run. -/
theorem sequence_runs_leaves_in_order (os : OS) (t : Node) (s : Engine) :
    run_command os t s = run_all os (leaves t) s ∧
    run_command os t s = sequence_spec os t s :=
  ⟨run_command_eq_run_all os t s,
    (run_command_eq_run_all os t s).trans (sequence_spec_eq_run_all os t s).symm⟩

/-! ## `exec_pipe`: claim C3 -/

/-- On a pipe node `run_command` is `exec_pipe`, the stage `i` being run by
`run_command` on `parts[i]`. -/
theorem run_command_pipe (os : OS) (parts : Parts) (s : Engine) :
    run_command os (.pipe parts) s =
      exec_pipe (fun i s1 => run_part os parts i s1) parts.length s := by
  rw [run_command]

theorem sys_pipe_spec (s : Engine) :
    ∃ rfd wfd : Int, s.sys_pipe.1 = rfd ∧ s.sys_pipe.2.1 = wfd ∧
      s.fds.lookup rfd = none ∧ s.fds.lookup wfd = none ∧ rfd ≠ wfd ∧
      s.sys_pipe.2.2.pipes = s.pipes + 1 ∧
      ∀ b, s.sys_pipe.2.2.fds.lookup b =
        if b = wfd then some (File.pipe_write s.pipes)
        else if b = rfd then some (File.pipe_read s.pipes) else s.fds.lookup b := by
  obtain ⟨rfd, -, hr1, hr2, hr3⟩ := sys_open_spec s.fds (File.pipe_read s.pipes)
  obtain ⟨wfd, -, hw1, hw2, hw3⟩ :=
    sys_open_spec (Shell.sys_open s.fds (some (File.pipe_read s.pipes))).2
      (File.pipe_write s.pipes)
  have hne : rfd ≠ wfd := by
    intro e; rw [← e, hr3] at hw1; simp at hw1
  refine ⟨rfd, wfd, hr2, hw2, hr1, ?_, hne, rfl, ?_⟩
  · rw [hr3] at hw1; simpa [Ne.symm hne] using hw1
  · intro b
    show (Shell.sys_open (Shell.sys_open s.fds (some (File.pipe_read s.pipes))).2
      (some (File.pipe_write s.pipes))).2.lookup b = _
    rw [hw3, hr3]

theorem open_pipes_spec (k : Nat) : ∀ s : Engine,
    (open_pipes k s).1.length = 2 * k ∧
    (open_pipes k s).2.forks = s.forks ∧
    (∀ fd ∈ (open_pipes k s).1, s.fds.lookup fd = none) ∧
    (∀ b, s.fds.lookup b ≠ none → (open_pipes k s).2.fds.lookup b = s.fds.lookup b) ∧
    ∀ j, j < k →
      (open_pipes k s).2.fds.lookup ((open_pipes k s).1.getD (2 * j) (-1)) =
        some (File.pipe_read (s.pipes + j)) ∧
      (open_pipes k s).2.fds.lookup ((open_pipes k s).1.getD (2 * j + 1) (-1)) =
        some (File.pipe_write (s.pipes + j)) := by
  induction k with
  | zero =>
    intro s
    refine ⟨rfl, rfl, ?_, fun b _ => rfl, fun j hj => by omega⟩
    intro fd hfd; simp [open_pipes] at hfd
  | succ k ih =>
    intro s
    obtain ⟨rfd, wfd, e1, e2, hrfree, hwfree, hne, hpipes, hlook⟩ := sys_pipe_spec s
    obtain ⟨i1, i2, i3, i4, i5⟩ := ih s.sys_pipe.2.2
    have hforks : s.sys_pipe.2.2.forks = s.forks := rfl
    have hunf : open_pipes (k + 1) s =
        (rfd :: wfd :: (open_pipes k s.sys_pipe.2.2).1, (open_pipes k s.sys_pipe.2.2).2) := by
      rw [open_pipes, e1, e2]
    rw [hunf]
    have hr' : s.sys_pipe.2.2.fds.lookup rfd = some (File.pipe_read s.pipes) := by
      rw [hlook]; simp [hne]
    have hw' : s.sys_pipe.2.2.fds.lookup wfd = some (File.pipe_write s.pipes) := by
      rw [hlook]; simp
    refine ⟨by simp only [List.length_cons, i1]; omega, by rw [i2, hforks], ?_, ?_, ?_⟩
    · intro fd hfd
      simp only [List.mem_cons] at hfd
      rcases hfd with rfl | rfl | hfd
      · exact hrfree
      · exact hwfree
      · have := i3 fd hfd
        rw [hlook] at this
        by_cases c1 : fd = wfd
        · simp [c1] at this
        · by_cases c2 : fd = rfd
          · subst c2; simp [hne] at this
          · simpa [c1, c2] using this
    · intro b hb
      have c1 : b ≠ wfd := by intro e; rw [e] at hb; exact hb hwfree
      have c2 : b ≠ rfd := by intro e; rw [e] at hb; exact hb hrfree
      have hb' : s.sys_pipe.2.2.fds.lookup b = s.fds.lookup b := by
        rw [hlook]; simp [c1, c2]
      rw [i4 b (by rw [hb']; exact hb), hb']
    · intro j hj
      cases j with
      | zero =>
        simp only [Nat.mul_zero, List.getD_cons_zero, Nat.zero_add, List.getD_cons_succ,
          Nat.add_zero]
        exact ⟨by rw [i4 rfd (by rw [hr']; simp), hr'], by rw [i4 wfd (by rw [hw']; simp), hw']⟩
      | succ j =>
        have a1 : 2 * (j + 1) = 2 * j + 1 + 1 := by omega
        have a2 : s.pipes + (j + 1) = s.sys_pipe.2.2.pipes + j := by rw [hpipes]; omega
        obtain ⟨g1, g2⟩ := i5 j (by omega)
        rw [a1, a2]
        simp only [List.getD_cons_succ]
        exact ⟨g1, g2⟩

theorem range_foldl_getD (f : Engine → Int → Engine) (l : List Int) : ∀ s : Engine,
    (List.range l.length).foldl (fun s1 j => f s1 (l.getD j (-1))) s = l.foldl f s := by
  induction l with
  | nil => intro s; rfl
  | cons x l ih =>
    intro s
    rw [List.length_cons, List.range_succ_eq_map, List.foldl_cons, List.foldl_map]
    simp only [List.getD_cons_zero, List.getD_cons_succ, List.foldl_cons]
    exact ih (f s x)

theorem close_list_spec (l : List Int) : ∀ s : Engine,
    (l.foldl (fun s1 fd => (s1.sys_close fd).2) s).log = s.log ∧
    ∀ b, (l.foldl (fun s1 fd => (s1.sys_close fd).2) s).fds.lookup b =
      if b ∈ l then none else s.fds.lookup b := by
  induction l with
  | nil => intro s; exact ⟨rfl, fun b => by simp⟩
  | cons x l ih =>
    intro s
    obtain ⟨h1, h2⟩ := ih (s.sys_close x).2
    refine ⟨by rw [List.foldl_cons, h1]; rfl, fun b => ?_⟩
    rw [List.foldl_cons, h2, sys_close_fds, sys_close_spec]
    by_cases c1 : b = x
    · simp [c1]
    · by_cases c2 : b ∈ l <;> simp [c1, c2]

theorem close_pipes_spec (pipefd : List Int) (s : Engine) :
    (close_pipes pipefd pipefd.length s).log = s.log ∧
    ∀ b, (close_pipes pipefd pipefd.length s).fds.lookup b =
      if b ∈ pipefd then none else s.fds.lookup b := by
  unfold close_pipes
  rw [range_foldl_getD (fun s1 fd => (s1.sys_close fd).2) pipefd s]
  exact close_list_spec pipefd s

theorem fork_loop_child (parts : Nat) (pipefd : List Int)
    (pids : List Int) : ∀ (todo i c : Nat) (s : Engine) (rest : List Int),
    s.forks = pids ++ 0 :: rest → (∀ p ∈ pids, p ≠ 0) → pids.length < todo →
    ∃ sm, sm.fds = s.fds ∧ ∀ run_stage : Nat → Engine → Outcome,
      pipe_fork_loop run_stage parts pipefd todo i c s =
        (run_stage (i + pids.length)
          (pipe_child parts pipefd (i + pids.length) (c + pids.length) sm)).andThen
          fun s1 => .exited 1 s1 := by
  induction pids with
  | nil =>
    intro todo i c s rest hf _ hlt
    obtain ⟨t, rfl⟩ : ∃ t, todo = t + 1 := ⟨todo - 1, by simp at hlt; omega⟩
    refine ⟨{ s with forks := rest }, rfl, fun run_stage => ?_⟩
    rw [pipe_fork_loop, fork_cons s 0 rest (by simpa using hf)]
    simp
  | cons p pids ih =>
    intro todo i c s rest hf hp hlt
    obtain ⟨t, rfl⟩ : ∃ t, todo = t + 1 := ⟨todo - 1, by simp at hlt; omega⟩
    have hp0 : p ≠ 0 := hp p (by simp)
    obtain ⟨sm, h1, h2⟩ := ih t (i + 1) (c + 1)
      (if p < 0 then ({ s with forks := pids ++ 0 :: rest } : Engine).emit (Event.perror "fork")
        else { s with forks := pids ++ 0 :: rest }) rest
      (by split <;> rfl) (fun q hq => hp q (by simp [hq]))
      (by simp only [List.length_cons] at hlt; omega)
    refine ⟨sm, by rw [h1]; split <;> rfl, fun run_stage => ?_⟩
    rw [pipe_fork_loop, fork_cons s p (pids ++ 0 :: rest) (by simpa using hf)]
    simp only [hp0, if_false]
    rw [h2]
    simp only [List.length_cons]
    have a1 : i + 1 + pids.length = i + (pids.length + 1) := by omega
    have a2 : c + 1 + pids.length = c + (pids.length + 1) := by omega
    rw [a1, a2]

theorem fork_loop_parent (parts : Nat) (pipefd : List Int)
    (pids : List Int) : ∀ (todo i c : Nat) (s : Engine) (rest : List Int),
    s.forks = pids ++ rest → (∀ p ∈ pids, p ≠ 0) → pids.length = todo →
    ∃ sm, sm.fds = s.fds ∧ ∀ run_stage : Nat → Engine → Outcome,
      pipe_fork_loop run_stage parts pipefd todo i c s = .returned sm := by
  induction pids with
  | nil =>
    intro todo i c s rest _ _ hlen
    subst hlen
    exact ⟨s, rfl, fun _ => rfl⟩
  | cons p pids ih =>
    intro todo i c s rest hf hp hlen
    subst hlen
    have hp0 : p ≠ 0 := hp p (by simp)
    obtain ⟨sm, h1, h2⟩ := ih pids.length (i + 1) (c + 1)
      (if p < 0 then ({ s with forks := pids ++ rest } : Engine).emit (Event.perror "fork")
        else { s with forks := pids ++ rest }) rest
      (by split <;> rfl) (fun q hq => hp q (by simp [hq])) rfl
    refine ⟨sm, by rw [h1]; split <;> rfl, fun run_stage => ?_⟩
    rw [List.length_cons, pipe_fork_loop, fork_cons s p (pids ++ rest) (by simpa using hf)]
    simp only [hp0, if_false]
    exact h2 run_stage

theorem open_pipes_congr (k : Nat) : ∀ s s2 : Engine, s.fds = s2.fds → s.pipes = s2.pipes →
    (open_pipes k s).1 = (open_pipes k s2).1 ∧
    (open_pipes k s).2.fds = (open_pipes k s2).2.fds := by
  induction k with
  | zero => intro s s2 h1 _; exact ⟨rfl, h1⟩
  | succ k ih =>
    intro s s2 h1 h2
    have e1 : s.sys_pipe.1 = s2.sys_pipe.1 := by
      simp only [Engine.sys_pipe, Engine.sys_open, h1, h2]
    have e2 : s.sys_pipe.2.1 = s2.sys_pipe.2.1 := by
      simp only [Engine.sys_pipe, Engine.sys_open, h1, h2]
    have e3 : s.sys_pipe.2.2.fds = s2.sys_pipe.2.2.fds := by
      simp only [Engine.sys_pipe, Engine.sys_open, h1, h2]
    have e4 : s.sys_pipe.2.2.pipes = s2.sys_pipe.2.2.pipes := by
      simp only [Engine.sys_pipe, Engine.sys_open, h1, h2]
    obtain ⟨g1, g2⟩ := ih s.sys_pipe.2.2 s2.sys_pipe.2.2 e3 e4
    exact ⟨by simp only [open_pipes, e1, e2, g1], by simp only [open_pipes, g2]⟩

/-- The child of stage `i` at the call of `run_command`, from a table in which
the pipes are open on descriptors other than 0 and 1. -/
theorem pipe_child_spec (n i base : Nat) (pipefd : List Int) (s : Engine) (hi : i < n)
    (hlen : pipefd.length = 2 * (n - 1))
    (hstd : ∀ fd ∈ pipefd, fd ≠ STDIN ∧ fd ≠ STDOUT)
    (hends : ∀ j, j < n - 1 →
      s.fds.lookup (pipefd.getD (2 * j) (-1)) = some (File.pipe_read (base + j)) ∧
      s.fds.lookup (pipefd.getD (2 * j + 1) (-1)) = some (File.pipe_write (base + j))) :
    (pipe_child n pipefd i i s).fds.lookup STDIN =
      (if i = 0 then s.fds.lookup STDIN else some (File.pipe_read (base + (i - 1)))) ∧
    (pipe_child n pipefd i i s).fds.lookup STDOUT =
      (if i = n - 1 then s.fds.lookup STDOUT else some (File.pipe_write (base + i))) ∧
    ∀ fd ∈ pipefd, (pipe_child n pipefd i i s).fds.lookup fd = none := by
  have hmem : ∀ j, j < 2 * (n - 1) → pipefd.getD j (-1) ∈ pipefd := by
    intro j hj
    rw [List.getD_eq_getElem _ _ (by omega)]
    exact List.getElem_mem _
  have hin : STDIN ∉ pipefd := fun h => (hstd _ h).1 rfl
  have hout : STDOUT ∉ pipefd := fun h => (hstd _ h).2 rfl
  have h01 : STDIN ≠ STDOUT := by decide
  -- the state after the first `dup2`
  have hs1 : ∀ b, (if i ≠ 0 then (s.sys_dup2 (pipefd.getD ((i - 1) * 2) (-1)) STDIN).2
      else s).fds.lookup b =
      if i ≠ 0 ∧ b = STDIN then some (File.pipe_read (base + (i - 1))) else s.fds.lookup b := by
    intro b
    by_cases c : i = 0
    · simp [c]
    · have e : (i - 1) * 2 = 2 * (i - 1) := by omega
      obtain ⟨-, g⟩ := sys_dup2_spec s.fds _ STDIN _ (hends (i - 1) (by omega)).1 (by decide)
      simp only [c, ne_eq, not_false_eq_true, if_true, sys_dup2_fds, e, true_and]
      rw [g]
  -- the state after the second `dup2`
  have hs2 : ∀ b, (if i ≠ n - 1 then
      ((if i ≠ 0 then (s.sys_dup2 (pipefd.getD ((i - 1) * 2) (-1)) STDIN).2
      else s).sys_dup2 (pipefd.getD (i * 2 + 1) (-1)) STDOUT).2
      else (if i ≠ 0 then (s.sys_dup2 (pipefd.getD ((i - 1) * 2) (-1)) STDIN).2
      else s)).fds.lookup b =
      if i ≠ n - 1 ∧ b = STDOUT then some (File.pipe_write (base + i))
      else if i ≠ 0 ∧ b = STDIN then some (File.pipe_read (base + (i - 1)))
      else s.fds.lookup b := by
    intro b
    by_cases c : i = n - 1
    · simp only [c, ne_eq, not_true_eq_false, if_false, false_and]
      have := hs1 b
      simp only [c] at this
      exact this
    · have e : i * 2 + 1 = 2 * i + 1 := by omega
      have hsrc : (if i ≠ 0 then (s.sys_dup2 (pipefd.getD ((i - 1) * 2) (-1)) STDIN).2
          else s).fds.lookup (pipefd.getD (2 * i + 1) (-1)) = some (File.pipe_write (base + i)) := by
        rw [hs1]
        have hm := hmem (2 * i + 1) (by omega)
        have : pipefd.getD (2 * i + 1) (-1) ≠ STDIN := (hstd _ hm).1
        simp only [this, and_false, if_false]
        exact (hends i (by omega)).2
      obtain ⟨-, g⟩ := sys_dup2_spec _ _ STDOUT _ hsrc (by decide)
      simp only [c, ne_eq, not_false_eq_true, if_true, sys_dup2_fds, e, true_and]
      rw [g, hs1]
  have hclose := close_pipes_spec pipefd
    (if i ≠ n - 1 then
      ((if i ≠ 0 then (s.sys_dup2 (pipefd.getD ((i - 1) * 2) (-1)) STDIN).2
      else s).sys_dup2 (pipefd.getD (i * 2 + 1) (-1)) STDOUT).2
      else (if i ≠ 0 then (s.sys_dup2 (pipefd.getD ((i - 1) * 2) (-1)) STDIN).2
      else s))
  have hunf : ∀ b, (pipe_child n pipefd i i s).fds.lookup b =
      if b ∈ pipefd then none
      else if i ≠ n - 1 ∧ b = STDOUT then some (File.pipe_write (base + i))
      else if i ≠ 0 ∧ b = STDIN then some (File.pipe_read (base + (i - 1)))
      else s.fds.lookup b := by
    intro b
    unfold pipe_child
    simp only [← hlen]
    rw [hclose.2 b, hs2 b]
  refine ⟨?_, ?_, ?_⟩
  · rw [hunf]
    by_cases c : i = 0 <;> simp [hin, h01, c]
  · rw [hunf]
    by_cases c : i = n - 1 <;> simp [hout, c, Ne.symm h01]
  · intro fd hfd
    rw [hunf]; simp [hfd]

/-- C3.  A pipe node of `n >= 2` stages, run by `exec_pipe` from a table in
which descriptors 0, 1 and 2 are open and whose pipe ends all belong to pipes
made earlier (the new pipes are numbered from `s.pipes`): the first loop
returns `2 (n - 1)` descriptors.  In the child forked for stage `i` (the
`fork` calls of the stages before it returned nonzero, its own returned 0),
the call is `run_command(parts[i])` followed by `exit(EXIT_FAILURE)`, made in
a state `c` where standard input refers to the read end of pipe `i - 1` when
`i > 0` and to what it referred to on entry when `i = 0`, so to the read end
of one of the new pipes if and only if `i > 0`; where standard output refers
to the write end of pipe `i` when `i` is not the last stage and to what it
referred to on entry when it is; and where every descriptor returned by
`pipe()` is closed.  In the parent (all `n` calls of `fork` returned nonzero)
`exec_pipe` returns, and every descriptor returned by `pipe()` is closed; the
waits that follow the closing loop do not touch the table. -/
theorem exec_pipe_descriptors (s : Engine) (n : Nat) (hn : 2 ≤ n)
    (h0 : s.fds.lookup STDIN ≠ none) (h1 : s.fds.lookup STDOUT ≠ none)
    (_h2 : s.fds.lookup STDERR ≠ none)
    (hfresh : ∀ fd k, s.fds.lookup fd = some (File.pipe_read k) ∨
      s.fds.lookup fd = some (File.pipe_write k) → k < s.pipes) :
    (open_pipes (n - 1) s).1.length = 2 * (n - 1) ∧
    (∀ (i : Nat) (pids rest : List Int), i < n → pids.length = i → (∀ p ∈ pids, p ≠ 0) →
      ∃ c : Engine,
        (∀ run_stage, exec_pipe run_stage n { s with forks := pids ++ 0 :: rest } =
          (run_stage i c).andThen fun s1 => .exited 1 s1) ∧
        c.fds.lookup STDIN =
          (if i = 0 then s.fds.lookup STDIN else some (File.pipe_read (s.pipes + (i - 1)))) ∧
        c.fds.lookup STDOUT =
          (if i = n - 1 then s.fds.lookup STDOUT else some (File.pipe_write (s.pipes + i))) ∧
        ((∃ j, c.fds.lookup STDIN = some (File.pipe_read (s.pipes + j))) ↔ 0 < i) ∧
        ((∃ j, c.fds.lookup STDOUT = some (File.pipe_write (s.pipes + j))) ↔ i ≠ n - 1) ∧
        ∀ fd ∈ (open_pipes (n - 1) s).1, c.fds.lookup fd = none) ∧
    (∀ (pids rest : List Int), pids.length = n → (∀ p ∈ pids, p ≠ 0) →
      ∃ s1 : Engine,
        (∀ run_stage, exec_pipe run_stage n { s with forks := pids ++ rest } = .returned s1) ∧
        ∀ fd ∈ (open_pipes (n - 1) s).1, s1.fds.lookup fd = none) := by
  obtain ⟨plen, -, pfree, pframe, pends⟩ := open_pipes_spec (n - 1) s
  have hn0 : n ≠ 0 := by omega
  have hstd : ∀ fd ∈ (open_pipes (n - 1) s).1, fd ≠ STDIN ∧ fd ≠ STDOUT := by
    intro fd hfd
    have := pfree fd hfd
    exact ⟨fun e => h0 (e ▸ this), fun e => h1 (e ▸ this)⟩
  refine ⟨plen, ?_, ?_⟩
  · intro i pids rest hi hlen hp
    obtain ⟨q1, q2⟩ := open_pipes_congr (n - 1) { s with forks := pids ++ 0 :: rest } s rfl rfl
    have qf := (open_pipes_spec (n - 1) { s with forks := pids ++ 0 :: rest }).2.1
    obtain ⟨sm, g1, g2⟩ := fork_loop_child n
      (open_pipes (n - 1) s).1 pids n 0 0 _ rest qf hp (by omega)
    rw [q2] at g1
    simp only [Nat.zero_add, hlen] at g2
    obtain ⟨c1, c2, c3⟩ := pipe_child_spec n i s.pipes (open_pipes (n - 1) s).1 sm hi plen hstd
      (fun j hj => by rw [g1]; exact pends j hj)
    rw [g1, pframe _ h0] at c1
    rw [g1, pframe _ h1] at c2
    refine ⟨pipe_child n (open_pipes (n - 1) s).1 i i sm, fun run_stage => ?_, c1, c2, ?_, ?_, c3⟩
    · unfold exec_pipe
      simp only [hn0, if_false, q1, g2 run_stage, andThen_assoc]
      rfl
    · rw [c1]
      constructor
      · rintro ⟨j, hj⟩
        by_contra hc
        have hi0 : i = 0 := by omega
        rw [if_pos hi0] at hj
        have := hfresh STDIN (s.pipes + j) (Or.inl hj)
        omega
      · intro hpos
        exact ⟨i - 1, by rw [if_neg (by omega)]⟩
    · rw [c2]
      constructor
      · rintro ⟨j, hj⟩ hc
        rw [if_pos hc] at hj
        have := hfresh STDOUT (s.pipes + j) (Or.inr hj)
        omega
      · intro hne
        exact ⟨i, by rw [if_neg hne]⟩
  · intro pids rest hlen hp
    obtain ⟨q1, q2⟩ := open_pipes_congr (n - 1) { s with forks := pids ++ rest } s rfl rfl
    have qf := (open_pipes_spec (n - 1) { s with forks := pids ++ rest }).2.1
    obtain ⟨sm, g1, g2⟩ := fork_loop_parent n
      (open_pipes (n - 1) s).1 pids n 0 0 _ rest qf hp hlen
    refine ⟨wait_stages n (close_pipes (open_pipes (n - 1) s).1 (2 * (n - 1)) sm),
      fun run_stage => ?_, fun fd hfd => ?_⟩
    · unfold exec_pipe
      simp only [hn0, if_false, q1, g2 run_stage]
      rfl
    · rw [← plen]
      show (close_pipes _ _ sm).fds.lookup fd = none
      rw [(close_pipes_spec _ sm).2 fd]
      simp [hfd]

theorem demo_fds_inodes (fd : Int) :
    demo_fds.lookup fd = none ∨ ∃ m, demo_fds.lookup fd = some (File.inode m) := by
  unfold Table.lookup
  split
  · exact Or.inl rfl
  · generalize fd.toNat = k
    rcases k with _ | _ | _ | k
    · exact Or.inr ⟨0, rfl⟩
    · exact Or.inr ⟨1, rfl⟩
    · exact Or.inr ⟨2, rfl⟩
    · exact Or.inl rfl

theorem demo_fds_fresh (fd : Int) (k : Nat)
    (h : demo_engine.fds.lookup fd = some (File.pipe_read k) ∨
      demo_engine.fds.lookup fd = some (File.pipe_write k)) : k < demo_engine.pipes := by
  exfalso
  have hfds : demo_engine.fds = demo_fds := rfl
  rw [hfds] at h
  rcases demo_fds_inodes fd with h0 | ⟨m, hm⟩
  · rw [h0] at h; rcases h with h | h <;> cases h
  · rw [hm] at h; rcases h with h | h <;> cases h

/-- C3 at three stages on a terminal, in the child of the middle stage. -/
theorem exec_pipe_descriptors_witness :
    (open_pipes (3 - 1) demo_engine).1.length = 2 * (3 - 1) ∧
    ∃ c : Engine,
      (∀ run_stage, exec_pipe run_stage 3 { demo_engine with forks := [100] ++ 0 :: [] } =
        (run_stage 1 c).andThen fun s1 => .exited 1 s1) ∧
      c.fds.lookup STDIN = some (File.pipe_read (demo_engine.pipes + (1 - 1))) ∧
      c.fds.lookup STDOUT = some (File.pipe_write (demo_engine.pipes + 1)) ∧
      ((∃ j, c.fds.lookup STDIN = some (File.pipe_read (demo_engine.pipes + j))) ↔ 0 < 1) ∧
      ((∃ j, c.fds.lookup STDOUT = some (File.pipe_write (demo_engine.pipes + j))) ↔
        1 ≠ 3 - 1) ∧
      ∀ fd ∈ (open_pipes (3 - 1) demo_engine).1, c.fds.lookup fd = none :=
  ⟨(exec_pipe_descriptors demo_engine 3 (by decide) (by decide) (by decide) (by decide)
      demo_fds_fresh).1,
    (exec_pipe_descriptors demo_engine 3 (by decide) (by decide) (by decide) (by decide)
      demo_fds_fresh).2.1 1 [100] [] (by decide) rfl (by decide)⟩

end Shell
